import Mathlib

/-!
Shallow embedding of the `financial_planning_lib` simulation core
(files `time.rs`, `asset.rs`, `lookup_table.rs`, `flow.rs`, `tax.rs`,
`model.rs`, `events.rs`) together with theorems settling the frozen
claims about it.

Machine integers (Rust `i64`) are embedded as `Int`; the only place the
source checks for overflow (`i64::checked_mul` inside `Rate::at_rate`)
is embedded with an explicit range check against the `i64` bounds.
Rust `/` and `%` on `i64` truncate toward zero, so they are embedded as
`Int.tdiv` / `Int.tmod`.  Fallible Rust functions (`anyhow::Result`)
are embedded as `Except String`; where the source calls a
`Result`-returning operation from a context that needs its value, the
error propagates (Rust `?`).
-/

namespace FinPlan

/-- The 12-value month cycle from `time.rs`. -/
inductive Month
  | january | february | march | april | may | june
  | july | august | september | october | november | december
deriving DecidableEq, Repr

/-- `Month::num` from `time.rs`: January = 0 … December = 11. -/
def Month.num : Month → Nat
  | .january => 0
  | .february => 1
  | .march => 2
  | .april => 3
  | .may => 4
  | .june => 5
  | .july => 6
  | .august => 7
  | .september => 8
  | .october => 9
  | .november => 10
  | .december => 11

/-- `Month::next` from `time.rs`: cycles December back to January. -/
def Month.next : Month → Month
  | .january => .february
  | .february => .march
  | .march => .april
  | .april => .may
  | .may => .june
  | .june => .july
  | .july => .august
  | .august => .september
  | .september => .october
  | .october => .november
  | .november => .december
  | .december => .january

/-- `Time` from `time.rs`: a (year, month) pair.  `Year(pub u32)` is
embedded as `Nat`. -/
structure Time where
  year : Nat
  month : Month
deriving DecidableEq, Repr

/-- Linear index of a time: `year * 12 + month.num`, the quantity the
source uses for `Time - Time`.  The derived lexicographic order on
`Time` coincides with comparison of this index. -/
def Time.idx (t : Time) : Nat := t.year * 12 + t.month.num

theorem Month.num_lt (m : Month) : m.num < 12 := by cases m <;> decide

theorem Month.num_inj : Function.Injective Month.num := by
  intro a b h
  cases a <;> cases b <;> first | rfl | exact absurd h (by decide)

theorem Time.idx_inj : Function.Injective Time.idx := by
  intro a b h
  obtain ⟨y1, m1⟩ := a
  obtain ⟨y2, m2⟩ := b
  have h1 := Month.num_lt m1
  have h2 := Month.num_lt m2
  simp only [Time.idx] at h
  have hy : y1 = y2 := by omega
  subst hy
  have hm : m1.num = m2.num := by omega
  have := Month.num_inj hm
  subst this
  rfl

/-- The derived `PartialOrd`/`Ord` on the Rust `Time` struct is the
lexicographic order on (year, month); since `month.num < 12` it is the
pullback of `Nat`'s order along `Time.idx`. -/
instance : LinearOrder Time := LinearOrder.lift' Time.idx Time.idx_inj

theorem Time.le_iff {a b : Time} : a ≤ b ↔ a.idx ≤ b.idx := Iff.rfl

theorem Time.lt_iff {a b : Time} : a < b ↔ a.idx < b.idx := by
  rw [lt_iff_le_not_le, lt_iff_le_not_le]
  exact Iff.rfl

/-- `Time::next` from `time.rs`: advances the month, carrying the year
when wrapping from December. -/
def Time.next (t : Time) : Time :=
  { year := match t.month with
      | .december => t.year + 1
      | _ => t.year
    month := t.month.next }

theorem Time.idx_next (t : Time) : t.next.idx = t.idx + 1 := by
  obtain ⟨y, m⟩ := t
  cases m <;> (simp [Time.next, Time.idx, Month.next, Month.num]; try omega)

/-- `&Time - &Time` from `time.rs`: the signed month count
`(year*12 + month) - (year*12 + month)` as an `i64` (`Months`). -/
def Time.sub (a b : Time) : Int := (a.idx : Int) - (b.idx : Int)

/-- `Frequency` from `time.rs`. -/
inductive Frequency
  | monthly | quarterly | yearly
deriving DecidableEq, Repr

/-- `Months::even_freq` from `time.rs`.  Rust `%` on `i64` truncates
toward zero (`Int.tmod`). -/
def Months.even_freq (m : Int) (f : Frequency) : Bool :=
  match f with
  | .monthly => true
  | .quarterly => m.tmod 3 == 0
  | .yearly => m.tmod 12 == 0

/-- `TimeRange<T>` from `time.rs`: a half-open interval.  The Rust
field `end` is a Lean keyword, embedded as `end_`. -/
structure TimeRange (T : Type) where
  start : T
  end_ : T
deriving DecidableEq

/-- Helper: `n` successive times starting at `start`. -/
def timeList (start : Time) : Nat → List Time
  | 0 => []
  | n + 1 => start :: timeList start.next n

/-- Iteration of a `TimeRange<Time>` (`time.rs` `TimeRangeIter`): the
iterator yields `current` while `current < end`, stepping by `next`.
Since `next` increments `Time.idx` by exactly one, it yields the
`end.idx - start.idx` times starting at `start` (none if
`start >= end`). -/
def TimeRange.toList (r : TimeRange Time) : List Time :=
  timeList r.start (r.end_.idx - r.start.idx)

/-- `Year::months` from `time.rs`: the 12 times of the year, January
through December, obtained by iterating
`[Time(y, January), Time(y+1, January))`. -/
def Year.months (y : Nat) : List Time :=
  TimeRange.toList ⟨⟨y, .january⟩, ⟨y + 1, .january⟩⟩

/-- `Money` from `asset.rs`: a signed (`i64`) number of cents. -/
structure Money where
  cents : Int
deriving DecidableEq, Repr

def Money.from_dollars (a : Int) : Money := ⟨a * 100⟩

def Money.from_cents (a : Int) : Money := ⟨a⟩

/-- `Money::as_dollars`: Rust `i64` division truncates toward zero. -/
def Money.as_dollars (m : Money) : Int := m.cents.tdiv 100

def Money.as_cents (m : Money) : Int := m.cents

def Money.negate (m : Money) : Money := ⟨m.cents * -1⟩

instance : Add Money := ⟨fun a b => ⟨a.cents + b.cents⟩⟩

instance : Sub Money := ⟨fun a b => ⟨a.cents - b.cents⟩⟩

theorem Money.add_def (a b : Money) : a + b = ⟨a.cents + b.cents⟩ := rfl

theorem Money.sub_def (a b : Money) : a - b = ⟨a.cents - b.cents⟩ := rfl

/-- The derived `Ord` on `Money` compares cents. -/
instance : LinearOrder Money :=
  LinearOrder.lift' Money.cents (fun a b h => by cases a; cases b; simpa using h)

/-- `RATE_PRECISION` from `asset.rs`. -/
def RATE_PRECISION : Nat := 6

/-- `RATE_SCALE = 10^RATE_PRECISION` from `asset.rs`. -/
def RATE_SCALE : Int := 10 ^ RATE_PRECISION

/-- `Rate` from `asset.rs`: a percentage stored as a signed integer at
scale `RATE_SCALE` (so `raw = percent * 10^6`). -/
structure Rate where
  raw : Int
deriving DecidableEq, Repr

def Rate.from_percent (p : Int) : Rate := ⟨p * RATE_SCALE⟩

def Rate.as_percent (r : Rate) : Int := r.raw.tdiv RATE_SCALE

instance : Sub Rate := ⟨fun a b => ⟨a.raw - b.raw⟩⟩

def Rate.inverse (r : Rate) : Rate := Rate.from_percent 100 - r

def Rate.negate (r : Rate) : Rate := ⟨r.raw * -1⟩

/-- `impl Div<i64> for Rate` from `asset.rs`. -/
def Rate.div_int (r : Rate) (n : Int) : Rate := ⟨r.raw.tdiv n⟩

/-- Bounds of Rust `i64`, used by `checked_mul`. -/
def i64Min : Int := -(2 ^ 63)

def i64Max : Int := 2 ^ 63 - 1

/-- Rust `i64::checked_mul`: `none` exactly when the mathematical
product does not fit in an `i64`. -/
def checkedMul (a b : Int) : Option Int :=
  if a * b < i64Min ∨ i64Max < a * b then none else some (a * b)

/-- `Rate::at_rate` from `asset.rs`: multiply the cents by the raw rate
(checked), then divide by `RATE_SCALE` and by 100, truncating toward
zero. -/
def Rate.at_rate (r : Rate) (m : Money) : Except String Money :=
  match checkedMul m.cents r.raw with
  | none => .error "Applying rate would cause overflow"
  | some tmp => .ok ⟨(tmp.tdiv RATE_SCALE).tdiv 100⟩

/-- `Money::at_rate` from `asset.rs` delegates to `Rate::at_rate`. -/
def Money.at_rate (m : Money) (r : Rate) : Except String Money := r.at_rate m

/-- `impl Div for Money` from `asset.rs`: build the `Rate` from the
numerator first (at full internal scale), then divide by the
denominator's cents. -/
def Money.div (a b : Money) : Rate := (Rate.from_percent (a.cents * 100)).div_int b.cents

/-- `Money` summation (`impl Sum for Money` in `asset.rs`). -/
def Money.sum (l : List Money) : Money := ⟨(l.map Money.cents).sum⟩

/-! ## LookupTable (`lookup_table.rs`) -/

/-- `LookupTable<T, V>` from `lookup_table.rs`: the stored (validated,
sorted) list of `(TimeRange, value)` pairs. -/
structure LookupTable (T V : Type) where
  ranges : List (TimeRange T × V)

/-- `ranges.sort_unstable_by_key(|(r, _)| r.start.clone())` from
`lookup_table.rs`, embedded as a comparison sort on the range starts
(an insertion sort; the source's unstable sort is just as unspecified
on ties, and the validation outcome below is tie-order independent). -/
def sortRanges {T V : Type} [LinearOrder T] (rs : List (TimeRange T × V)) :
    List (TimeRange T × V) :=
  @List.insertionSort _ (fun a b => a.1.start ≤ b.1.start)
    (fun a b => inferInstanceAs (Decidable (a.1.start ≤ b.1.start))) rs

/-- The per-entry loop of `LookupTable::validate_contiguous_ranges`:
`prev` is the end of the previous entry (`None` for the first).  Each
entry must have `start < end` and, when `prev` is present, must start
exactly at `prev`. -/
def checkRanges {T V : Type} [LinearOrder T] (prev : Option T) :
    List (TimeRange T × V) → Except String Unit
  | [] => .ok ()
  | e :: rest =>
    if e.1.start > e.1.end_ then .error "Table entry has end > start"
    else if e.1.start = e.1.end_ then .error "Table entry has empty range"
    else
      match prev with
      | some p =>
        if p ≠ e.1.start then .error "Table has non-contiguous range"
        else checkRanges (some e.1.end_) rest
      | none => checkRanges (some e.1.end_) rest

/-- `LookupTable::validate_contiguous_ranges` from `lookup_table.rs`:
reject empty input, sort by range start, then run the contiguity
check. -/
def LookupTable.validate_contiguous_ranges {T V : Type} [LinearOrder T]
    (rs : List (TimeRange T × V)) : Except String (List (TimeRange T × V)) :=
  if rs.isEmpty then .error "Got empty ranges, which is not allowed"
  else
    match checkRanges none (sortRanges rs) with
    | .error e => .error e
    | .ok _ => .ok (sortRanges rs)

/-- `LookupTable::new` from `lookup_table.rs`. -/
def LookupTable.new {T V : Type} [LinearOrder T] (rs : List (TimeRange T × V)) :
    Except String (LookupTable T V) :=
  match LookupTable.validate_contiguous_ranges rs with
  | .error e => .error e
  | .ok v => .ok ⟨v⟩

/-- The scan inside `LookupTable::value_at`: first entry with
`start <= time && end > time` wins. -/
def valueAtScan {T V : Type} [LinearOrder T] (t : T) :
    List (TimeRange T × V) → Except String V
  | [] => .error "Time was not within our range"
  | (r, v) :: rest => if r.start ≤ t ∧ t < r.end_ then .ok v else valueAtScan t rest

/-- `LookupTable::value_at` from `lookup_table.rs`. -/
def LookupTable.value_at {T V : Type} [LinearOrder T] (tbl : LookupTable T V) (t : T) :
    Except String V :=
  valueAtScan t tbl.ranges

/-! ## Tax policies (`tax.rs`) -/

/-- `TaxTx` from `tax.rs`. -/
structure TaxTx where
  taxable_income : Money
  tax_withheld : Money
deriving DecidableEq, Repr

/-- The closed set of per-flow withholding policies implementing the
`TaxPolicy` trait in `tax.rs` (`NoWithholding`, `TaxExempt`,
`ConstantTaxPolicy`). -/
inductive TaxPolicy
  | noWithholding
  | taxExempt
  | constantRate (rate : Rate)
deriving DecidableEq, Repr

/-- `tax_withheld` of each concrete policy in `tax.rs`.
`ConstantTaxPolicy` applies `gross.at_rate(rate)`, whose overflow
error propagates. -/
def TaxPolicy.tax_withheld : TaxPolicy → Money → Except String TaxTx
  | .noWithholding, gross => .ok ⟨gross, Money.from_dollars 0⟩
  | .taxExempt, _ => .ok ⟨Money.from_dollars 0, Money.from_dollars 0⟩
  | .constantRate r, gross => do
    let w ← gross.at_rate r
    .ok ⟨gross, w⟩

/-- The `TaxPolicy::calculate_tax` default method from `tax.rs`:
`net = gross - tax_withheld(gross)`. -/
def TaxPolicy.calculate_tax (p : TaxPolicy) (gross : Money) :
    Except String (Money × TaxTx) := do
  let tx ← p.tax_withheld gross
  .ok (gross - tx.tax_withheld, tx)

/-- `TaxSummary` from `tax.rs`. -/
structure TaxSummary where
  net_amount : Money
  taxable_income : Money
  tax_withheld : Money
deriving DecidableEq, Repr

def TaxSummary.new : TaxSummary :=
  ⟨Money.from_dollars 0, Money.from_dollars 0, Money.from_dollars 0⟩

/-- `TaxSummary::apply_tx` from `tax.rs`. -/
def TaxSummary.apply_tx (s : TaxSummary) (tx : TaxTx) (net : Money) : TaxSummary :=
  { net_amount := s.net_amount + net
    taxable_income := s.taxable_income + tx.taxable_income
    tax_withheld := s.tax_withheld + tx.tax_withheld }

/-- `TaxAdjustment` from `tax.rs`. -/
structure TaxAdjustment where
  owed : Money
  withheld : Money
  delta : Money
  effective_rate : Rate
deriving DecidableEq, Repr

/-! ## Flows (`flow.rs`) -/

/-- `Tx` from `asset.rs`. -/
structure Tx where
  time : Time
  amount : Money
  tax_tx : TaxTx
deriving DecidableEq, Repr

/-- The closed set of valuation policies implementing the `FlowValue`
trait in `flow.rs` (`FixedFlow`, `RateFlow`, `TableFlow`,
`RateTableFlow`). -/
inductive FlowValue
  | fixed (value : Money)
  | rate (rate : Rate)
  | table (table : LookupTable Time Money)
  | rateTable (table : LookupTable Time Rate)

/-- `Flow` from `flow.rs`.  The Rust field `end` is a Lean keyword,
embedded as `end_`; `FlowName(String)` is embedded as `String`. -/
structure Flow where
  name : String
  description : String
  start : Time
  end_ : Time
  frequency : Frequency
  value : FlowValue
  tax_policy : TaxPolicy

/-- The `FlowValue::applies_at` default method from `flow.rs`: false
outside the `[start, end)` window, otherwise frequency alignment of
`time - start`.  It does not depend on the concrete valuation
variant. -/
def Flow.applies_at (time : Time) (f : Flow) : Bool :=
  if time < f.start ∨ time ≥ f.end_ then false
  else Months.even_freq (Time.sub time f.start) f.frequency

/-- `value_at` of each concrete `FlowValue` in `flow.rs`.  `category`
is the category's running balance (`CategoryValue::value()`); rate
application errors and table lookup errors propagate. -/
def FlowValue.value_at (fv : FlowValue) (time : Time) (category : Money) :
    Except String Money :=
  match fv with
  | .fixed v => .ok v
  | .rate r => r.at_rate category
  | .table t => t.value_at time
  | .rateTable t => do
    let r ← t.value_at time
    r.at_rate category

/-- `Flow::calculate_transaction` from `flow.rs`. -/
def Flow.calculate_transaction (f : Flow) (category : Money) (time : Time) :
    Except String Tx := do
  let gross ← f.value.value_at time category
  let (net, tax_tx) ← f.tax_policy.calculate_tax gross
  .ok ⟨time, net, tax_tx⟩

/-- `AnnualTaxPolicy` trait from `tax.rs`, embedded as its record of
required methods; the `calculate_adjustment` default method is
`AnnualTaxPolicy.calculate_adjustment` below.  `calculate_owed`
returns `Except` because `FixedRateTaxPolicy` implements it with the
fallible `at_rate`. -/
structure AnnualTaxPolicy where
  calculate_owed : Money → TaxSummary → Except String Money
  calculate_taxable_income : TaxSummary → Money

/-- The `AnnualTaxPolicy::calculate_adjustment` default method from
`tax.rs`: computes owed/delta/effective-rate and the synthetic
"Tax adjustment" flow dated `[April of year+1, May of year+1)`. -/
def AnnualTaxPolicy.calculate_adjustment (p : AnnualTaxPolicy) (year : Nat)
    (summary : TaxSummary) : Except String (TaxAdjustment × Flow) := do
  let taxable_income := p.calculate_taxable_income summary
  let tax_owed ← p.calculate_owed taxable_income summary
  let delta := summary.tax_withheld - tax_owed
  .ok (
    { owed := tax_owed
      withheld := summary.tax_withheld
      delta := delta
      effective_rate :=
        if taxable_income = Money.from_dollars 0 then Rate.from_percent 0
        else Money.div tax_owed taxable_income },
    { name := "Tax adjustment"
      description := "Estimated tax refund/debt"
      start := ⟨year + 1, .april⟩
      end_ := ⟨year + 1, .may⟩
      frequency := .monthly
      value := .fixed delta
      tax_policy := .taxExempt })

/-- `FixedRateTaxPolicy` from `tax.rs`: owed is
`taxable_income.at_rate(rate)`, taxable income floors
`summary.taxable_income - deductions` at zero. -/
def FixedRateTaxPolicy (rate : Rate) (deductions : Money) : AnnualTaxPolicy :=
  { calculate_owed := fun taxable_income _ => taxable_income.at_rate rate
    calculate_taxable_income := fun summary =>
      max (summary.taxable_income - deductions) (Money.from_dollars 0) }

/-! ## Model driver (`model.rs`)

`BTreeMap`s keyed by names are embedded as association lists with
replace-on-existing-key insertion; the claims settled below depend only
on lookups, membership and sums over the entries, which insertion order
does not affect. -/

/-- Lookup in a name-keyed association list (`BTreeMap::get`). -/
def lookupA {α : Type} : List (String × α) → String → Option α
  | [], _ => none
  | (k', v) :: rest, k => if k' = k then some v else lookupA rest k

/-- Insertion into a name-keyed association list (`BTreeMap::insert`):
replaces the value of an existing key, otherwise appends. -/
def insertRep {α : Type} : List (String × α) → String → α → List (String × α)
  | [], k, v => [(k, v)]
  | (k', v') :: rest, k, v =>
    if k' = k then (k, v) :: rest else (k', v') :: insertRep rest k v

/-- `Category` from `asset.rs`: a name and its list of assets, each an
`(name, Money)` pair. -/
structure Category where
  name : String
  assets : List (String × Money)

/-- `Category::value` from `asset.rs`: the sum of the asset values,
the initial running balance of the category. -/
def Category.value (c : Category) : Money := Money.sum (c.assets.map Prod.snd)

/-- `MonthlyReport` from `model.rs`. -/
structure MonthlyReport where
  value : Money
  transactions : List (String × Tx)

/-- The per-flow loop of `CategoryModel::run` for one month: for every
flow with `applies_at(time)` true, `calculate_transaction` is invoked
against `bal`, the balance as it stood before this month's
transactions, and the result is inserted into the name-keyed month
map (replacing any same-named earlier flow's entry). -/
def evalFlows (bal : Money) (time : Time) :
    List Flow → List (String × Tx) → Except String (List (String × Tx))
  | [], acc => .ok acc
  | f :: rest, acc =>
    if Flow.applies_at time f then
      match f.calculate_transaction bal time with
      | .error e => .error e
      | .ok tx => evalFlows bal time rest (insertRep acc f.name tx)
    else evalFlows bal time rest acc

/-- `for tx in months_txns.values() { self.category_value.apply_tx(tx) }`
from `model.rs`: fold the month's transaction amounts into the
balance. -/
def applyTxs (bal : Money) (txns : List (String × Tx)) : Money :=
  txns.foldl (fun b p => b + p.2.amount) bal

/-- One month of `CategoryModel::run`: evaluate every applicable flow
against the month-opening balance, then apply all resulting amounts,
producing the `MonthlyReport` and the new balance. -/
def runCatMonth (flows : List Flow) (bal : Money) (time : Time) :
    Except String (MonthlyReport × Money) :=
  match evalFlows bal time flows [] with
  | .error e => .error e
  | .ok txns =>
    let newBal := applyTxs bal txns
    .ok (⟨newBal, txns⟩, newBal)

/-- The month loop of `CategoryModel::run` over a list of times,
threading the running balance; the report is keyed by month. -/
def runCatMonths (flows : List Flow) :
    Money → List Time → Except String (List (Month × MonthlyReport) × Money)
  | bal, [] => .ok ([], bal)
  | bal, t :: ts =>
    match runCatMonth flows bal t with
    | .error e => .error e
    | .ok (rep, bal') =>
      match runCatMonths flows bal' ts with
      | .error e => .error e
      | .ok (rest, balEnd) => .ok ((t.month, rep) :: rest, balEnd)

/-- `CategoryModel::run` from `model.rs`: run the category's flows over
the 12 months of the year. -/
def runCatYear (flows : List Flow) (bal : Money) (year : Nat) :
    Except String (List (Month × MonthlyReport) × Money) :=
  runCatMonths flows bal (Year.months year)

/-- `YearlyReport` from `model.rs`. -/
structure YearlyReport where
  category_summary : List (String × List (Month × MonthlyReport))
  tax_summary : TaxSummary
  tax_adjustment : TaxAdjustment

/-- The tax-accumulation loop of `Model::run_year`: fold every
transaction of a category's year report into the tax summary. -/
def accumTax (s : TaxSummary) (reps : List (Month × MonthlyReport)) : TaxSummary :=
  reps.foldl
    (fun acc mr => mr.2.transactions.foldl
      (fun a p => a.apply_tx p.2.tax_tx p.2.amount) acc)
    s

/-- The category loop of `Model::run_year`: each running category value
is processed only if the flows map has an entry for its name; its year
report is inserted into the summary and its transactions accumulated
into the tax summary.  Returns the updated running values, the
category summary and the tax summary. -/
def runYearCats (flows : List (String × List Flow)) (year : Nat) :
    List (String × Money) → List (String × List (Month × MonthlyReport)) →
    TaxSummary →
    Except String
      (List (String × Money) × List (String × List (Month × MonthlyReport)) × TaxSummary)
  | [], summary, tax => .ok ([], summary, tax)
  | (name, bal) :: rest, summary, tax =>
    match lookupA flows name with
    | none =>
      match runYearCats flows year rest summary tax with
      | .error e => .error e
      | .ok (vals', s', t') => .ok ((name, bal) :: vals', s', t')
    | some fl =>
      match runCatYear fl bal year with
      | .error e => .error e
      | .ok (reps, balEnd) =>
        match runYearCats flows year rest (insertRep summary name reps) (accumTax tax reps) with
        | .error e => .error e
        | .ok (vals', s', t') => .ok ((name, balEnd) :: vals', s', t')

/-- `flows.entry(tax_category).or_insert_with(Vec::new).push(tax_flow)`
from `Model::run_year`: append the flow to the tax category's list,
creating the entry if absent. -/
def pushFlow : List (String × List Flow) → String → Flow → List (String × List Flow)
  | [], cat, f => [(cat, [f])]
  | (k, fl) :: rest, cat, f =>
    if k = cat then (k, fl ++ [f]) :: rest else (k, fl) :: pushFlow rest cat f

/-- `Model::run_year` from `model.rs`: process every category that has
flows, then (after all categories) compute the year's tax adjustment
and append the synthetic tax flow to the tax category's flow list. -/
def runYear (flows : List (String × List Flow)) (vals : List (String × Money))
    (year : Nat) (p : AnnualTaxPolicy) (tax_category : String) :
    Except String (YearlyReport × List (String × List Flow) × List (String × Money)) :=
  match runYearCats flows year vals [] TaxSummary.new with
  | .error e => .error e
  | .ok (vals', summary, tax_summary) =>
    match p.calculate_adjustment year tax_summary with
    | .error e => .error e
    | .ok (adjustment, tax_flow) =>
      .ok (⟨summary, tax_summary, adjustment⟩, pushFlow flows tax_category tax_flow, vals')

/-- `ModelReport` from `model.rs`. -/
structure ModelReport where
  years : List (Nat × YearlyReport)

/-- `Model` from `model.rs`. -/
structure Model where
  categories : List Category
  flows : List (String × List Flow)
  tax_policy : AnnualTaxPolicy
  tax_category : String

/-- The year loop of `Model::run`, threading the mutated flows map and
category values from year to year. -/
def runYears (p : AnnualTaxPolicy) (tax_category : String) :
    List Nat → List (String × List Flow) → List (String × Money) →
    Except String (List (Nat × YearlyReport))
  | [], _, _ => .ok []
  | y :: ys, flows, vals =>
    match runYear flows vals y p tax_category with
    | .error e => .error e
    | .ok (report, flows', vals') =>
      match runYears p tax_category ys flows' vals' with
      | .error e => .error e
      | .ok rest => .ok ((y, report) :: rest)

/-- Iteration of `TimeRange<Year>`: the years `start, start+1, …`
strictly below `end_` (empty if `start >= end_`). -/
def yearList (start end_ : Nat) : List Nat :=
  (List.range (end_ - start)).map (start + ·)

/-- `Model::run` from `model.rs`: initialize one running value per
category from its assets, then run the years in ascending order. -/
def Model.run (m : Model) (r : TimeRange Nat) : Except String ModelReport :=
  match runYears m.tax_policy m.tax_category (yearList r.start r.end_) m.flows
      (m.categories.map (fun c => (c.name, c.value))) with
  | .error e => .error e
  | .ok years => .ok ⟨years⟩

/-! ## Event generators (`events.rs`) -/

/-- `HousePurchase` from `events.rs`. -/
structure HousePurchase where
  property_name : String
  time_range : TimeRange Time
  mortgage_rate : Rate
  purchase_price : Money
  setup_cost : Money
  down_payment : Money
  house_value_category : String
  mortgage_category : String
  down_payment_category : String
  regular_payment_category : String

/-- `HousePurchase::start_tx` from `events.rs`: a single-month
(`[start, start+1)`) tax-exempt fixed flow. -/
def HousePurchase.start_tx (hp : HousePurchase) (name description : String)
    (category_name : String) (value : Money) : String × Flow :=
  (category_name,
    { name := name
      description := description
      start := hp.time_range.start
      end_ := hp.time_range.start.next
      frequency := .monthly
      tax_policy := .taxExempt
      value := .fixed value })

/-- `HousePurchase::build_flows` from `events.rs`.  The amortized
monthly `payment` is computed by `calculate_repayment` via the
floating-point annuity formula and bridged back to fixed point; that
single float step is not shallowly embeddable, so `payment` is taken
here as a parameter (the repository's own test computes
`$1,264.13 = Money::from_cents(126413)` for a $200,000 loan at 6.5%
over 30 years).  Everything else follows the source line by line. -/
def HousePurchase.build_flows (hp : HousePurchase) (payment : Money) :
    List (String × Flow) :=
  [ hp.start_tx (hp.property_name ++ " initial mortgage setup")
      ("The initial setup of the mortgage for " ++ hp.property_name)
      hp.mortgage_category
      (hp.purchase_price.negate + hp.down_payment),
    hp.start_tx (hp.property_name ++ " initial house value")
      ("The initial purchase price of the house " ++ hp.property_name)
      hp.house_value_category
      hp.purchase_price,
    hp.start_tx (hp.property_name ++ " down payment")
      ("Down payment for house " ++ hp.property_name)
      hp.down_payment_category
      hp.down_payment.negate,
    hp.start_tx (hp.property_name ++ " mortgage setup cost")
      ("Costs involved with creating the mortgage " ++ hp.property_name)
      hp.down_payment_category
      hp.setup_cost.negate,
    (hp.regular_payment_category,
      { name := hp.property_name ++ " loan payment"
        description := "The regular repayments for the loan on " ++ hp.property_name
        start := hp.time_range.start.next
        end_ := hp.time_range.end_.next
        frequency := .monthly
        tax_policy := .taxExempt
        value := .fixed payment }),
    (hp.mortgage_category,
      { name := hp.property_name ++ " loan payment"
        description := "The regular repayments for the loan on " ++ hp.property_name
        start := hp.time_range.start.next
        end_ := hp.time_range.end_.next
        frequency := .monthly
        tax_policy := .taxExempt
        value := .fixed payment }),
    (hp.mortgage_category,
      { name := hp.property_name ++ " mortgage interest"
        description := "The regular interest costs for the loan on " ++ hp.property_name
        start := hp.time_range.start.next
        end_ := hp.time_range.end_.next
        frequency := .monthly
        tax_policy := .taxExempt
        value := .rate (hp.mortgage_rate.div_int 12) }) ]

/-! ## Rate parsing and display (`asset.rs`)

The Rust code delegates to the standard library's `str::trim`,
`str::parse::<i64>` and `str::parse::<f64>` (the latter purely as a
validity check).  Those library functions are modelled here: `trim`
strips ASCII whitespace, `parse::<i64>` accepts an optional sign
followed by one or more ASCII digits (failing on overflow of `i64`),
and the `f64` check accepts an optional sign, a decimal mantissa with
at least one digit, and an optional exponent. -/

def isWs (c : Char) : Bool := c = ' ' || c = '\t' || c = '\n' || c = '\r'

def trimChars (l : List Char) : List Char :=
  ((l.dropWhile isWs).reverse.dropWhile isWs).reverse

/-- `trim_end_matches('%')`: drop every trailing `%`. -/
def dropPct (l : List Char) : List Char :=
  (l.reverse.dropWhile (· = '%')).reverse

/-- `split_once('.')`: split at the first dot, if any. -/
def splitDot : List Char → Option (List Char × List Char)
  | [] => none
  | c :: rest =>
    if c = '.' then some ([], rest)
    else (splitDot rest).map (fun p => (c :: p.1, p.2))

def allDigits (l : List Char) : Bool := l.all Char.isDigit

def natOfDigits (l : List Char) : Nat :=
  l.foldl (fun a c => a * 10 + (c.toNat - '0'.toNat)) 0

/-- Model of `str::parse::<i64>`: optional sign, one or more digits,
whole string, within `i64` bounds. -/
def parseI64 (l : List Char) : Option Int :=
  let p : Int × List Char :=
    match l with
    | '+' :: rest => (1, rest)
    | '-' :: rest => (-1, rest)
    | _ => (1, l)
  if p.2 ≠ [] ∧ allDigits p.2 then
    let v : Int := p.1 * (natOfDigits p.2 : Int)
    if i64Min ≤ v ∧ v ≤ i64Max then some v else none
  else none

/-- Split at the first `e`/`E`, if any (exponent marker). -/
def splitExpMark : List Char → (List Char × Option (List Char))
  | [] => ([], none)
  | c :: rest =>
    if c = 'e' || c = 'E' then ([], some rest)
    else
      let p := splitExpMark rest
      (c :: p.1, p.2)

def floatMantissaOk (l : List Char) : Bool :=
  match splitDot l with
  | none => decide (l ≠ []) && allDigits l
  | some p => allDigits p.1 && allDigits p.2 && (decide (p.1 ≠ []) || decide (p.2 ≠ []))

/-- Model of the `str::parse::<f64>` validity check for decimal
literals: optional sign, mantissa with at least one digit, optional
signed exponent. -/
def floatOk (l : List Char) : Bool :=
  let body : List Char :=
    match l with
    | '+' :: rest => rest
    | '-' :: rest => rest
    | _ => l
  match splitExpMark body with
  | (m, none) => floatMantissaOk m
  | (m, some e) =>
    let ed : List Char :=
      match e with
      | '+' :: rest => rest
      | '-' :: rest => rest
      | _ => e
    floatMantissaOk m && (decide (ed ≠ []) && allDigits ed)

/-- The distinct outcomes of `impl FromStr for Rate`.  The source's
`(10 as i64).pow(RATE_PRECISION - digits)` subtracts `digits` from 6
as a `u32`, so when the fractional part has more than 6 digits but a
numeric value below `RATE_SCALE` the subtraction overflows and the
program panics instead of returning a parse error; that outcome is
embedded as the distinguished `subtractOverflow` error. -/
inductive RateParseErr
  | floatInvalid
  | intInvalid
  | tooManyDecimalPlaces
  | negativeFraction
  | subtractOverflow
deriving DecidableEq, Repr

/-- `impl FromStr for Rate` from `asset.rs`:
`s.trim().trim_end_matches('%').trim()`, split at the first dot; with
a dot, validate as `f64`, parse the fractional digits as `i64`, reject
values at or above `RATE_SCALE` and negative fractions, parse the
whole part, and assemble `whole * RATE_SCALE + points * 10^(6 - digits)`
(panicking when `digits > 6`); without a dot, parse as `i64` percent. -/
def Rate.from_str (s : String) : Except RateParseErr Rate :=
  let cl := trimChars (dropPct (trimChars s.toList))
  match splitDot cl with
  | some ws =>
    if ¬ floatOk cl then .error .floatInvalid
    else
      match parseI64 ws.2 with
      | none => .error .intInvalid
      | some points =>
        if points ≥ RATE_SCALE then .error .tooManyDecimalPlaces
        else if points < 0 then .error .negativeFraction
        else
          let digits := ws.2.length
          match parseI64 ws.1 with
          | none => .error .intInvalid
          | some whole =>
            if digits > RATE_PRECISION then .error .subtractOverflow
            else .ok ⟨whole * RATE_SCALE + points * 10 ^ (RATE_PRECISION - digits)⟩
  | none =>
    match parseI64 cl with
    | none => .error .intInvalid
    | some p => .ok (Rate.from_percent p)

/-- Rust `format!("{:02}", n)`: decimal digits of `n` zero-padded on
the left to a minimum width of 2. -/
def padZeroTwo (n : Int) : String :=
  if 0 ≤ n ∧ n < 10 then "0" ++ toString n else toString n

/-- `impl Display for Rate` from `asset.rs`: the whole percent
(`raw / RATE_SCALE`, truncated), then — only when the remainder
`raw % RATE_SCALE` is nonzero — a dot and the remainder formatted with
`{:02}` (zero-padded to a minimum width of two, not six), then `%`. -/
def Rate.display (r : Rate) : String :=
  let remainder := r.raw.tmod RATE_SCALE
  toString (r.raw.tdiv RATE_SCALE) ++
    (if remainder ≠ 0 then "." ++ padZeroTwo remainder else "") ++ "%"

/-! ## Helper lemmas -/

theorem tdiv_cast_compose (n b c : Nat) :
    (((n : Int).tdiv (b : Int)).tdiv (c : Int)) = (n : Int).tdiv ((b : Int) * (c : Int)) := by
  rw [← Int.ofNat_tdiv n b, ← Int.ofNat_tdiv (n / b) c, ← Int.ofNat_mul,
    ← Int.ofNat_tdiv n (b * c), Nat.div_div_eq_div_mul]

/-- Two successive truncating divisions by positive constants compose
into one: truncation happens only once, after the multiply. -/
theorem tdiv_compose (a : Int) (b c : Nat) :
    ((a.tdiv (b : Int)).tdiv (c : Int)) = a.tdiv ((b : Int) * (c : Int)) := by
  cases a with
  | ofNat n => exact tdiv_cast_compose n b c
  | negSucc m =>
    have h : (Int.negSucc m) = -(((m + 1 : Nat) : Int)) := rfl
    rw [h, Int.neg_tdiv, Int.neg_tdiv, Int.neg_tdiv, tdiv_cast_compose]

section LookupTableLemmas

variable {T V : Type} [LinearOrder T]

/-- The adjacency relation checked by `validate_contiguous_ranges`:
the next entry starts exactly where the previous one ends. -/
def RangeAdj (a b : TimeRange T × V) : Prop := a.1.end_ = b.1.start

/-- The extra constraint `checkRanges` carries for the head entry
given the end of the previous entry. -/
def prevOk (prev : Option T) (l : List (TimeRange T × V)) : Prop :=
  match prev, l with
  | some p, e :: _ => p = e.1.start
  | _, _ => True

theorem checkRanges_ok_iff (l : List (TimeRange T × V)) :
    ∀ prev : Option T,
      checkRanges prev l = .ok () ↔
        ((∀ e ∈ l, e.1.start < e.1.end_) ∧ prevOk prev l ∧
          List.Chain' (RangeAdj (V := V)) l) := by
  induction l with
  | nil =>
    intro prev
    simp [checkRanges, prevOk]
  | cons x rest ih =>
    intro prev
    rw [checkRanges.eq_def]
    dsimp only
    by_cases h1 : x.1.start > x.1.end_
    · rw [if_pos h1]
      constructor
      · intro h; exact Except.noConfusion h
      · rintro ⟨hall, -, -⟩
        exact absurd (hall x (List.mem_cons_self x rest)) (not_lt.mpr (le_of_lt h1))
    · rw [if_neg h1]
      by_cases h2 : x.1.start = x.1.end_
      · rw [if_pos h2]
        constructor
        · intro h; exact Except.noConfusion h
        · rintro ⟨hall, -, -⟩
          exact absurd (hall x (List.mem_cons_self x rest)) (by rw [h2]; exact lt_irrefl _)
      · have hlt : x.1.start < x.1.end_ := lt_of_le_of_ne (not_lt.mp h1) h2
        rw [if_neg h2]
        have tailIff : checkRanges (some x.1.end_) rest = .ok () ↔
            ((∀ e ∈ rest, e.1.start < e.1.end_) ∧ prevOk (some x.1.end_) rest ∧
              List.Chain' (RangeAdj (V := V)) rest) := ih (some x.1.end_)
        have rhsIff :
            ((∀ e ∈ x :: rest, e.1.start < e.1.end_) ∧ prevOk prev (x :: rest) ∧
              List.Chain' (RangeAdj (V := V)) (x :: rest)) ↔
            (prevOk prev (x :: rest) ∧
              ((∀ e ∈ rest, e.1.start < e.1.end_) ∧ prevOk (some x.1.end_) rest ∧
                List.Chain' (RangeAdj (V := V)) rest)) := by
          cases rest with
          | nil => simp [prevOk, hlt, List.chain'_singleton]
          | cons y ys =>
            rw [List.chain'_cons]
            constructor
            · rintro ⟨hall, hp, hr, hc⟩
              refine ⟨hp, fun e he => hall e (List.mem_cons_of_mem x he), ?_, hc⟩
              exact hr
            · rintro ⟨hp, hall, hpo, hc⟩
              refine ⟨?_, hp, ?_, hc⟩
              · intro e he
                rcases List.mem_cons.mp he with rfl | he'
                · exact hlt
                · exact hall e he'
              · exact hpo
        rw [rhsIff]
        cases prev with
        | none =>
          show checkRanges (some x.1.end_) rest = Except.ok () ↔ _
          rw [tailIff]
          constructor
          · intro h; exact ⟨trivial, h⟩
          · intro h; exact h.2
        | some p =>
          show (if p ≠ x.1.start then Except.error "Table has non-contiguous range"
              else checkRanges (some x.1.end_) rest) = Except.ok () ↔ _
          by_cases hp : p = x.1.start
          · rw [if_neg (by simpa using hp), tailIff]
            constructor
            · intro h; exact ⟨hp, h⟩
            · intro h; exact h.2
          · rw [if_pos (by simpa using hp)]
            constructor
            · intro h; exact Except.noConfusion h
            · rintro ⟨hpo, -⟩
              exact absurd hpo hp

/-- In a contiguous chain every entry starts at or after any lower
bound on the head's start. -/
theorem chain_start_lb (l : List (TimeRange T × V)) :
    (∀ e ∈ l, e.1.start < e.1.end_) →
    List.Chain' (RangeAdj (V := V)) l →
    ∀ b : T, (∀ x, l.head? = some x → b ≤ x.1.start) →
    ∀ e ∈ l, b ≤ e.1.start := by
  induction l with
  | nil => intro _ _ b _ e he; cases he
  | cons x rest ih =>
    intro hall hch b hb e he
    rcases List.mem_cons.mp he with rfl | he'
    · exact hb e rfl
    · cases rest with
      | nil => cases he'
      | cons y ys =>
        have hxy : RangeAdj x y := (List.chain'_cons.mp hch).1
        refine ih (fun e' he'' => hall e' (List.mem_cons_of_mem x he''))
          (List.chain'_cons.mp hch).2 b ?_ e he'
        intro w hw
        have hwy : y = w := by simpa using hw
        rw [← hwy, ← hxy]
        exact le_of_lt (lt_of_le_of_lt (hb x rfl)
          (hall x (List.mem_cons_self x (y :: ys))))

/-- A contiguous chain contains at most one entry containing any given
point. -/
theorem chain_unique_containing (l : List (TimeRange T × V)) :
    (∀ e ∈ l, e.1.start < e.1.end_) →
    List.Chain' (RangeAdj (V := V)) l →
    ∀ t : T, ∀ e ∈ l, e.1.start ≤ t → t < e.1.end_ →
      ∀ e' ∈ l, e'.1.start ≤ t → t < e'.1.end_ → e = e' := by
  induction l with
  | nil => intro _ _ t e he; cases he
  | cons x rest ih =>
    intro hall hch t e he he1 he2 e' he' he1' he2'
    have hlb : ∀ z ∈ rest, x.1.end_ ≤ z.1.start := by
      cases rest with
      | nil => intro z hz; cases hz
      | cons y ys =>
        intro z hz
        refine chain_start_lb (y :: ys)
          (fun w hw => hall w (List.mem_cons_of_mem x hw))
          (List.chain'_cons.mp hch).2 x.1.end_ ?_ z hz
        intro w hw
        have hwy : y = w := by simpa using hw
        rw [← hwy]
        exact le_of_eq (List.chain'_cons.mp hch).1
    rcases List.mem_cons.mp he with rfl | hm
    · rcases List.mem_cons.mp he' with rfl | hm'
      · rfl
      · exact absurd he1' (not_le.mpr (lt_of_lt_of_le he2 (hlb e' hm')))
    · rcases List.mem_cons.mp he' with rfl | hm'
      · exact absurd he1 (not_le.mpr (lt_of_lt_of_le he2' (hlb e hm)))
      · exact ih (fun w hw => hall w (List.mem_cons_of_mem x hw)) hch.tail t
          e hm he1 he2 e' hm' he1' he2'

/-- The `value_at` scan succeeds with `v` exactly when some entry of a
contiguous chain contains the query (the chain makes that entry
unique). -/
theorem scan_ok_iff (l : List (TimeRange T × V)) :
    (∀ e ∈ l, e.1.start < e.1.end_) →
    List.Chain' (RangeAdj (V := V)) l →
    ∀ (t : T) (v : V),
      valueAtScan t l = .ok v ↔ ∃ e ∈ l, e.1.start ≤ t ∧ t < e.1.end_ ∧ e.2 = v := by
  induction l with
  | nil =>
    intro _ _ t v
    simp [valueAtScan]
  | cons x rest ih =>
    intro hall hch t v
    rw [valueAtScan]
    by_cases hx : x.1.start ≤ t ∧ t < x.1.end_
    · rw [if_pos hx]
      constructor
      · rintro h
        injection h with h
        exact ⟨x, List.mem_cons_self x rest, hx.1, hx.2, h⟩
      · rintro ⟨e, he, he1, he2, rfl⟩
        have : x = e := chain_unique_containing (x :: rest) hall hch t
          x (List.mem_cons_self x rest) hx.1 hx.2 e he he1 he2
        rw [this]
    · rw [if_neg hx]
      rw [ih (fun w hw => hall w (List.mem_cons_of_mem x hw)) hch.tail t v]
      constructor
      · rintro ⟨e, he, h1, h2, h3⟩
        exact ⟨e, List.mem_cons_of_mem x he, h1, h2, h3⟩
      · rintro ⟨e, he, h1, h2, h3⟩
        rcases List.mem_cons.mp he with rfl | he'
        · exact absurd ⟨h1, h2⟩ hx
        · exact ⟨e, he', h1, h2, h3⟩

/-- The `value_at` scan fails exactly when no entry contains the
query. -/
theorem scan_error_iff (l : List (TimeRange T × V)) :
    ∀ t : T,
      valueAtScan t l = .error "Time was not within our range" ↔
        ∀ e ∈ l, ¬(e.1.start ≤ t ∧ t < e.1.end_) := by
  induction l with
  | nil => intro t; simp [valueAtScan]
  | cons x rest ih =>
    intro t
    rw [valueAtScan]
    by_cases hx : x.1.start ≤ t ∧ t < x.1.end_
    · rw [if_pos hx]
      constructor
      · intro h; cases h
      · intro h
        exact absurd hx (h x (List.mem_cons_self x rest))
    · rw [if_neg hx]
      rw [ih t]
      constructor
      · intro h e he
        rcases List.mem_cons.mp he with rfl | he'
        · exact hx
        · exact h e he'
      · intro h e he'
        exact h e (List.mem_cons_of_mem x he')

/-- For a contiguous chain, some entry contains `t` exactly when `t`
lies in `[first.start, last.end_)`. -/
theorem chain_cover_iff (l : List (TimeRange T × V)) :
    (∀ e ∈ l, e.1.start < e.1.end_) →
    List.Chain' (RangeAdj (V := V)) l →
    ∀ fst lst, l.head? = some fst → l.getLast? = some lst →
    ∀ t : T,
      (∃ e ∈ l, e.1.start ≤ t ∧ t < e.1.end_) ↔
        (fst.1.start ≤ t ∧ t < lst.1.end_) := by
  induction l with
  | nil => intro _ _ fst lst h; cases h
  | cons x rest ih =>
    intro hall hch fst lst hfst hlst t
    have hxf : x = fst := by simpa using hfst
    subst hxf
    cases rest with
    | nil =>
      have hxl : x = lst := by simpa using hlst
      subst hxl
      constructor
      · rintro ⟨e, he, h1, h2⟩
        have hex : e = x := by simpa using he
        subst hex
        exact ⟨h1, h2⟩
      · rintro ⟨h1, h2⟩
        exact ⟨x, List.mem_cons_self _ _, h1, h2⟩
    | cons y ys =>
      have hxy : RangeAdj x y := (List.chain'_cons.mp hch).1
      have hlst' : (y :: ys).getLast? = some lst := by
        rw [← List.getLast?_cons_cons]
        exact hlst
      have ihy := ih (fun w hw => hall w (List.mem_cons_of_mem x hw))
        (List.chain'_cons.mp hch).2 y lst rfl hlst' t
      have hylb : y.1.start ≤ lst.1.start := by
        refine chain_start_lb (y :: ys)
          (fun w hw => hall w (List.mem_cons_of_mem x hw))
          (List.chain'_cons.mp hch).2 y.1.start ?_ lst
          (List.mem_of_mem_getLast? hlst')
        intro w hw
        have hwy : y = w := by simpa using hw
        rw [← hwy]
      constructor
      · rintro ⟨e, he, h1, h2⟩
        rcases List.mem_cons.mp he with rfl | he'
        · refine ⟨h1, ?_⟩
          calc t < e.1.end_ := h2
            _ = y.1.start := hxy
            _ ≤ lst.1.start := hylb
            _ < lst.1.end_ := hall lst (List.mem_cons_of_mem e
                (List.mem_of_mem_getLast? hlst'))
        · have hm := ihy.mp ⟨e, he', h1, h2⟩
          refine ⟨?_, hm.2⟩
          calc x.1.start ≤ x.1.end_ :=
              le_of_lt (hall x (List.mem_cons_self _ _))
            _ = y.1.start := hxy
            _ ≤ t := hm.1
      · rintro ⟨h1, h2⟩
        by_cases hin : t < x.1.end_
        · exact ⟨x, List.mem_cons_self _ _, h1, hin⟩
        · have hy : y.1.start ≤ t := by
            rw [← hxy]
            exact not_lt.mp hin
          obtain ⟨e, he, he1, he2⟩ := ihy.mpr ⟨hy, h2⟩
          exact ⟨e, List.mem_cons_of_mem x he, he1, he2⟩

omit [LinearOrder T] in
theorem prevOk_none (l : List (TimeRange T × V)) : prevOk none l := by
  cases l <;> trivial

end LookupTableLemmas

/-! ### Step equations for the driver functions -/

theorem evalFlows_nil (bal : Money) (time : Time) (acc : List (String × Tx)) :
    evalFlows bal time [] acc = .ok acc := rfl

theorem evalFlows_cons (bal : Money) (time : Time) (f : Flow) (rest : List Flow)
    (acc : List (String × Tx)) :
    evalFlows bal time (f :: rest) acc =
      if Flow.applies_at time f then
        match f.calculate_transaction bal time with
        | .error e => .error e
        | .ok tx => evalFlows bal time rest (insertRep acc f.name tx)
      else evalFlows bal time rest acc := rfl

theorem runCatMonths_nil (flows : List Flow) (bal : Money) :
    runCatMonths flows bal [] = .ok ([], bal) := rfl

theorem runCatMonths_cons (flows : List Flow) (bal : Money) (t : Time) (ts : List Time) :
    runCatMonths flows bal (t :: ts) =
      match runCatMonth flows bal t with
      | .error e => .error e
      | .ok (rep, bal') =>
        match runCatMonths flows bal' ts with
        | .error e => .error e
        | .ok (rest, balEnd) => .ok ((t.month, rep) :: rest, balEnd) := rfl

theorem runYearCats_nil (flows : List (String × List Flow)) (year : Nat)
    (summary : List (String × List (Month × MonthlyReport))) (tax : TaxSummary) :
    runYearCats flows year [] summary tax = .ok ([], summary, tax) := rfl

theorem runYearCats_cons (flows : List (String × List Flow)) (year : Nat)
    (name : String) (bal : Money) (rest : List (String × Money))
    (summary : List (String × List (Month × MonthlyReport))) (tax : TaxSummary) :
    runYearCats flows year ((name, bal) :: rest) summary tax =
      match lookupA flows name with
      | none =>
        match runYearCats flows year rest summary tax with
        | .error e => .error e
        | .ok (vals', s', t') => .ok ((name, bal) :: vals', s', t')
      | some fl =>
        match runCatYear fl bal year with
        | .error e => .error e
        | .ok (reps, balEnd) =>
          match runYearCats flows year rest (insertRep summary name reps)
              (accumTax tax reps) with
          | .error e => .error e
          | .ok (vals', s', t') => .ok ((name, balEnd) :: vals', s', t') := rfl

theorem lookupA_insertRep_ne {α : Type} (m : List (String × α)) (k k' : String)
    (v : α) (h : k ≠ k') :
    lookupA (insertRep m k v) k' = lookupA m k' := by
  induction m with
  | nil => simp [insertRep, lookupA, h]
  | cons e rest ih =>
    obtain ⟨e1, e2⟩ := e
    by_cases he : e1 = k
    · subst he
      simp [insertRep, lookupA, h]
    · by_cases h1 : e1 = k'
      · subst h1
        simp [insertRep, lookupA, he]
      · simp [insertRep, lookupA, he, h1, ih]

theorem mem_insertRep {α : Type} (m : List (String × α)) (k : String) (v : α)
    (p : String × α) (h : p ∈ insertRep m k v) : p ∈ m ∨ p = (k, v) := by
  induction m with
  | nil =>
    rw [insertRep] at h
    rcases List.mem_singleton.mp h with rfl
    exact Or.inr rfl
  | cons e rest ih =>
    obtain ⟨e1, e2⟩ := e
    rw [insertRep] at h
    by_cases he : e1 = k
    · rw [if_pos he] at h
      rcases List.mem_cons.mp h with rfl | hm
      · exact Or.inr rfl
      · exact Or.inl (List.mem_cons_of_mem _ hm)
    · rw [if_neg he] at h
      rcases List.mem_cons.mp h with rfl | hm
      · exact Or.inl (List.mem_cons_self _ _)
      · rcases ih hm with hm' | hp
        · exact Or.inl (List.mem_cons_of_mem _ hm')
        · exact Or.inr hp

theorem lookupA_insertRep_self {α : Type} (m : List (String × α)) (k : String) (v : α) :
    lookupA (insertRep m k v) k = some v := by
  induction m with
  | nil => simp [insertRep, lookupA]
  | cons e rest ih =>
    obtain ⟨e1, e2⟩ := e
    by_cases he : e1 = k
    · subst he
      simp [insertRep, lookupA]
    · simp [insertRep, lookupA, he, ih]

theorem lookupA_insertRep_keep {α : Type} (m : List (String × α)) (k k' : String)
    (v : α) (h : lookupA m k' ≠ none) : lookupA (insertRep m k v) k' ≠ none := by
  by_cases hk : k = k'
  · subst hk
    rw [lookupA_insertRep_self]
    exact Option.noConfusion
  · rw [lookupA_insertRep_ne m k k' v hk]
    exact h

/-- Sum of the amounts in a month's name-keyed transaction map. -/
def txSum (txns : List (String × Tx)) : Money :=
  ⟨(txns.map (fun p => p.2.amount.cents)).sum⟩

theorem applyTxs_eq_add_txSum (txns : List (String × Tx)) :
    ∀ bal : Money, applyTxs bal txns = bal + txSum txns := by
  induction txns with
  | nil =>
    intro bal
    show bal = bal + ⟨0⟩
    rw [Money.add_def]
    cases bal
    simp
  | cons p rest ih =>
    intro bal
    show applyTxs (bal + p.2.amount) rest = _
    rw [ih (bal + p.2.amount), Money.add_def, Money.add_def, Money.add_def]
    show (⟨bal.cents + p.2.amount.cents + (txSum rest).cents⟩ : Money) = _
    have : (txSum (p :: rest)).cents = p.2.amount.cents + (txSum rest).cents := by
      show (List.map (fun q => q.2.amount.cents) (p :: rest)).sum =
        p.2.amount.cents + (List.map (fun q => q.2.amount.cents) rest).sum
      rw [List.map_cons, List.sum_cons]
    rw [this]
    congr 1
    ring

/-- The per-month contract of `CategoryModel::run` ("C1 shape"): the
report's recorded value is the month-opening balance plus the sum of
the amounts in the name-keyed transaction map, applied once; every
recorded transaction was produced by `calculate_transaction` of an
applicable flow evaluated against the month-opening balance; and every
applicable flow was successfully evaluated against that same balance —
the pre-transaction snapshot — with its name present in the map. -/
def MonthOk (flows : List Flow) (bal : Money) (time : Time) (rep : MonthlyReport) : Prop :=
  rep.value = bal + txSum rep.transactions ∧
  (∀ p ∈ rep.transactions, ∃ f ∈ flows, Flow.applies_at time f = true ∧
    f.name = p.1 ∧ f.calculate_transaction bal time = .ok p.2) ∧
  (∀ f ∈ flows, Flow.applies_at time f = true →
    (∃ tx, f.calculate_transaction bal time = .ok tx) ∧
      lookupA rep.transactions f.name ≠ none)

/-- The month-chained contract of a category's year run: the reports
line up with the month list, each month satisfies `MonthOk` against
the previous month's ending balance, and each month's ending balance
is the next month's opening balance. -/
def MonthsOk (flows : List Flow) : Money → List Time → List (Month × MonthlyReport) → Prop
  | _, [], [] => True
  | bal, t :: ts, mr :: mrs =>
    mr.1 = t.month ∧ MonthOk flows bal t mr.2 ∧ MonthsOk flows mr.2.value ts mrs
  | _, _, _ => False

/-! ## Claims -/

/-- C7: `applies_at(time, flow)` is false whenever `time < flow.start`
or `time >= flow.end` (start inclusive, end exclusive), and otherwise
true iff the signed month count `time - flow.start` is an even
multiple of the flow's frequency: always for Monthly, divisibility by
3 for Quarterly, divisibility by 12 for Yearly. -/
theorem c7_applies_at_window_and_frequency (t : Time) (f : Flow) :
    Flow.applies_at t f = true ↔
      (f.start ≤ t ∧ t < f.end_ ∧
        (match f.frequency with
          | .monthly => True
          | .quarterly => (3 : Int) ∣ Time.sub t f.start
          | .yearly => (12 : Int) ∣ Time.sub t f.start)) := by
  rw [Flow.applies_at]
  split
  case isTrue h =>
    simp only [Bool.false_eq_true, false_iff]
    rintro ⟨h1, h2, -⟩
    rcases h with h | h
    · exact absurd h1 (not_le.mpr h)
    · exact absurd h2 (not_lt.mpr h)
  case isFalse h =>
    push_neg at h
    obtain ⟨h1, h2⟩ := h
    rw [and_iff_right h1, and_iff_right h2]
    cases f.frequency
    · simp [Months.even_freq]
    · simpa [Months.even_freq] using
        ⟨Int.dvd_of_tmod_eq_zero, Int.tmod_eq_zero_of_dvd⟩
    · simpa [Months.even_freq] using
        ⟨Int.dvd_of_tmod_eq_zero, Int.tmod_eq_zero_of_dvd⟩

/-- C4: rate application multiplies the cents by the rate's full-scale
raw value first and truncates toward zero only once, after the
multiply-then-divide step (`tdiv` by `10^6 * 100 = 10^8`); an `i64`
multiplication overflow is reported as an error, never wrapped; and
$2 at 20% is a `Money` whose dollar view is 0 but whose internal
representation is exactly 40 cents. -/
theorem c4_at_rate_multiply_then_divide :
    (∀ (m : Money) (r : Rate),
      Money.at_rate m r =
        if m.cents * r.raw < i64Min ∨ i64Max < m.cents * r.raw
        then .error "Applying rate would cause overflow"
        else .ok ⟨(m.cents * r.raw).tdiv 100000000⟩) ∧
    Money.at_rate (Money.from_dollars 2) (Rate.from_percent 20) = .ok ⟨40⟩ ∧
    (Money.from_cents 40).as_dollars = 0 ∧
    (Money.from_cents 40).as_cents = 40 := by
  refine ⟨fun m r => ?_, by rfl, by decide, by decide⟩
  rw [Money.at_rate, Rate.at_rate, checkedMul]
  by_cases h : m.cents * r.raw < i64Min ∨ i64Max < m.cents * r.raw
  · rw [if_pos h, if_pos h]
  · rw [if_neg h, if_neg h]
    show Except.ok (⟨((m.cents * r.raw).tdiv RATE_SCALE).tdiv 100⟩ : Money) = _
    rw [show RATE_SCALE = ((1000000 : Nat) : Int) by decide,
      show (100 : Int) = ((100 : Nat) : Int) by decide, tdiv_compose]
    norm_num

/-- C5: `Money / Money` scales the numerator's cents to the rate's
full internal precision (`* 100 * 10^6 = * 10^8`) before dividing by
the denominator's cents; dividing $1 by $3 yields the raw rate value
33333333, not a two-digit truncation. -/
theorem c5_money_division_full_precision :
    (∀ a b : Money, b.cents ≠ 0 →
      Money.div a b = ⟨(a.cents * 100000000).tdiv b.cents⟩) ∧
    Money.div (Money.from_dollars 1) (Money.from_dollars 3) = ⟨33333333⟩ := by
  constructor
  · intro a b _
    rw [Money.div, Rate.from_percent, Rate.div_int]
    have : a.cents * 100 * RATE_SCALE = a.cents * 100000000 := by
      rw [show RATE_SCALE = (1000000 : Int) by decide]
      ring
    rw [this]
  · decide

/-- Witness for C5 at `$1 / $3`. -/
theorem c5_money_division_full_precision_witness :
    (Money.from_dollars 3).cents ≠ 0 ∧
      Money.div (Money.from_dollars 1) (Money.from_dollars 3) =
        ⟨((Money.from_dollars 1).cents * 100000000).tdiv (Money.from_dollars 3).cents⟩ :=
  ⟨by decide,
    c5_money_division_full_precision.1 (Money.from_dollars 1) (Money.from_dollars 3) (by decide)⟩

/-- C6: `LookupTable::new` accepts entries in any order and succeeds
exactly when, after sorting by range start, the entry list is
non-empty, every range has `start < end`, and each entry starts where
the previous one ends (no gaps, no overlaps); for every valid table,
`value_at t` returns the value of the unique entry with
`start <= t < end`, and returns an error — never clamping or
extrapolating — exactly when `t` is before the covered start or at or
after the covered end. -/
theorem c6_lookup_table_validation_and_lookup {T V : Type} [LinearOrder T]
    (rs : List (TimeRange T × V)) :
    ((∃ tbl, LookupTable.new rs = .ok tbl) ↔
      (sortRanges rs ≠ [] ∧ (∀ e ∈ sortRanges rs, e.1.start < e.1.end_) ∧
        List.Chain' (RangeAdj (V := V)) (sortRanges rs))) ∧
    (∀ tbl, LookupTable.new rs = .ok tbl →
      tbl.ranges = sortRanges rs ∧
      ∀ t : T,
        (∀ v, tbl.value_at t = .ok v ↔
          ∃ e ∈ tbl.ranges, e.1.start ≤ t ∧ t < e.1.end_ ∧ e.2 = v ∧
            ∀ e' ∈ tbl.ranges, e'.1.start ≤ t → t < e'.1.end_ → e' = e) ∧
        (tbl.value_at t = .error "Time was not within our range" ↔
          ∃ fst lst, tbl.ranges.head? = some fst ∧ tbl.ranges.getLast? = some lst ∧
            (t < fst.1.start ∨ lst.1.end_ ≤ t))) := by
  have hempty : rs.isEmpty = true ↔ sortRanges rs = [] := by
    rw [List.isEmpty_iff]
    constructor
    · intro h
      subst h
      rfl
    · intro h
      have hlen := congrArg List.length h
      rw [sortRanges, List.length_insertionSort] at hlen
      exact List.length_eq_zero.mp hlen
  have hdissect : ∀ tbl, LookupTable.new rs = .ok tbl →
      (rs.isEmpty = false ∧ checkRanges (V := V) none (sortRanges rs) = .ok () ∧
        tbl.ranges = sortRanges rs) := by
    intro tbl h
    rw [LookupTable.new, LookupTable.validate_contiguous_ranges] at h
    by_cases he : rs.isEmpty
    · rw [if_pos he] at h
      exact Except.noConfusion h
    · rw [if_neg he] at h
      cases hc : checkRanges (V := V) none (sortRanges rs) with
      | error e =>
        rw [hc] at h
        exact Except.noConfusion h
      | ok u =>
        cases u
        rw [hc] at h
        have h' : Except.ok (LookupTable.mk (sortRanges rs)) =
            (Except.ok tbl : Except String (LookupTable T V)) := h
        injection h' with h'
        exact ⟨Bool.eq_false_iff.mpr he, rfl, by rw [← h']⟩
  constructor
  · constructor
    · rintro ⟨tbl, h⟩
      obtain ⟨he, hc, -⟩ := hdissect tbl h
      obtain ⟨hall, -, hch⟩ := (checkRanges_ok_iff (sortRanges rs) none).mp hc
      refine ⟨?_, hall, hch⟩
      intro hnil
      rw [hempty.mpr hnil] at he
      exact Bool.noConfusion he
    · rintro ⟨hne, hall, hch⟩
      have he : rs.isEmpty = false := by
        cases hb : rs.isEmpty with
        | false => rfl
        | true => exact absurd (hempty.mp hb) hne
      have hc : checkRanges (V := V) none (sortRanges rs) = .ok () :=
        (checkRanges_ok_iff (sortRanges rs) none).mpr
          ⟨hall, prevOk_none (sortRanges rs), hch⟩
      refine ⟨⟨sortRanges rs⟩, ?_⟩
      rw [LookupTable.new, LookupTable.validate_contiguous_ranges, if_neg
        (by rw [he]; exact Bool.false_ne_true), hc]
  · intro tbl h
    obtain ⟨hie, hc, hr⟩ := hdissect tbl h
    obtain ⟨hall, -, hch⟩ := (checkRanges_ok_iff (sortRanges rs) none).mp hc
    rw [← hr] at hall hch
    refine ⟨hr, fun t => ⟨fun v => ?_, ?_⟩⟩
    · rw [LookupTable.value_at, scan_ok_iff tbl.ranges hall hch t v]
      constructor
      · rintro ⟨e, he, h1, h2, h3⟩
        exact ⟨e, he, h1, h2, h3, fun e' he' h1' h2' =>
          chain_unique_containing tbl.ranges hall hch t e' he' h1' h2' e he h1 h2⟩
      · rintro ⟨e, he, h1, h2, h3, -⟩
        exact ⟨e, he, h1, h2, h3⟩
    · have hne : tbl.ranges ≠ [] := by
        rw [hr]
        intro hn
        have hcontra := hempty.mpr hn
        rw [hie] at hcontra
        exact Bool.noConfusion hcontra
      have hh : tbl.ranges.head? ≠ none := by
        rwa [ne_eq, List.head?_eq_none_iff]
      have hl : tbl.ranges.getLast? ≠ none := by
        rwa [ne_eq, List.getLast?_eq_none_iff]
      obtain ⟨fst, hfst⟩ := Option.ne_none_iff_exists'.mp hh
      obtain ⟨lst, hlst⟩ := Option.ne_none_iff_exists'.mp hl
      rw [LookupTable.value_at, scan_error_iff tbl.ranges t]
      have hcov := chain_cover_iff tbl.ranges hall hch fst lst hfst hlst t
      constructor
      · intro hnone
        refine ⟨fst, lst, hfst, hlst, ?_⟩
        by_contra hcon
        push_neg at hcon
        obtain ⟨e, he, hc1, hc2⟩ := hcov.mpr ⟨hcon.1, hcon.2⟩
        exact hnone e he ⟨hc1, hc2⟩
      · rintro ⟨fst', lst', hfst', hlst', hout⟩ e he hcont
        rw [hfst] at hfst'
        rw [hlst] at hlst'
        obtain rfl : fst = fst' := Option.some.inj hfst'
        obtain rfl : lst = lst' := Option.some.inj hlst'
        have hin := hcov.mp ⟨e, he, hcont.1, hcont.2⟩
        rcases hout with hlt | hge
        · exact absurd hin.1 (not_le.mpr hlt)
        · exact absurd hin.2 (not_lt.mpr hge)

/-- Witness for C6: building a table from two unordered entries
succeeds, and `value_at 3` finds the (unique) second segment. -/
theorem c6_lookup_table_validation_and_lookup_witness :
    LookupTable.value_at (⟨[(⟨1, 3⟩, 10), (⟨3, 5⟩, 20)]⟩ : LookupTable Nat Int) 3 = .ok 20 :=
  ((((c6_lookup_table_validation_and_lookup
        ([(⟨3, 5⟩, 20), (⟨1, 3⟩, 10)] : List (TimeRange Nat × Int))).2
      ⟨[(⟨1, 3⟩, 10), (⟨3, 5⟩, 20)]⟩ (by rfl)).2 3).1 20).mpr
    ⟨(⟨3, 5⟩, 20), by decide, by decide, by decide, rfl, by decide⟩

/-- Helper: a successful `calculate_adjustment` always produces the
synthetic "Tax adjustment" flow dated `[April of year+1, May of
year+1)` with a Fixed valuation of `delta` and a tax-exempt policy. -/
theorem calculate_adjustment_ok_shape (p : AnnualTaxPolicy) (year : Nat)
    (s : TaxSummary) (adj : TaxAdjustment) (tf : Flow)
    (h : p.calculate_adjustment year s = .ok (adj, tf)) :
    tf.name = "Tax adjustment" ∧ tf.start = ⟨year + 1, .april⟩ ∧
      tf.end_ = ⟨year + 1, .may⟩ ∧ tf.frequency = .monthly ∧
      tf.tax_policy = .taxExempt ∧ tf.value = .fixed adj.delta ∧
      adj.withheld = s.tax_withheld ∧ adj.delta = s.tax_withheld - adj.owed := by
  rw [AnnualTaxPolicy.calculate_adjustment] at h
  cases howed : p.calculate_owed (p.calculate_taxable_income s) s with
  | error e =>
    rw [howed] at h
    exact Except.noConfusion h
  | ok owed =>
    rw [howed] at h
    have h' : Except.ok (ε := String)
        (({ owed := owed
            withheld := s.tax_withheld
            delta := s.tax_withheld - owed
            effective_rate :=
              if p.calculate_taxable_income s = Money.from_dollars 0
              then Rate.from_percent 0
              else Money.div owed (p.calculate_taxable_income s) } : TaxAdjustment),
          ({ name := "Tax adjustment"
             description := "Estimated tax refund/debt"
             start := ⟨year + 1, .april⟩
             end_ := ⟨year + 1, .may⟩
             frequency := .monthly
             value := .fixed (s.tax_withheld - owed)
             tax_policy := .taxExempt } : Flow)) = .ok (adj, tf) := h
    injection h' with h'
    obtain ⟨ha, hf⟩ := Prod.mk.injEq _ _ _ _ |>.mp h'
    subst ha
    subst hf
    exact ⟨rfl, rfl, rfl, rfl, rfl, rfl, rfl, rfl⟩

/-- C2: for every year and `TaxSummary`, whenever the policy's
owed-computation succeeds, `calculate_adjustment` returns the
`TaxAdjustment` with `delta = tax_withheld - owed` and
`effective_rate = owed / taxable_income` (exactly 0% when the taxable
income is zero), paired with a tax-exempt, Monthly, Fixed-valued flow
named "Tax adjustment" of amount `delta` spanning
`[April of year+1, May of year+1)`; and `run_year` appends exactly that
flow — computed after all categories were processed from the *input*
flows map — to the tax category's entry of the flows map it returns
for the next year. -/
theorem c2_tax_adjustment_and_feedback :
    (∀ (p : AnnualTaxPolicy) (year : Nat) (s : TaxSummary) (owed : Money),
      p.calculate_owed (p.calculate_taxable_income s) s = .ok owed →
      p.calculate_adjustment year s = .ok
        ({ owed := owed
           withheld := s.tax_withheld
           delta := s.tax_withheld - owed
           effective_rate :=
             if p.calculate_taxable_income s = Money.from_dollars 0
             then Rate.from_percent 0
             else Money.div owed (p.calculate_taxable_income s) },
         { name := "Tax adjustment"
           description := "Estimated tax refund/debt"
           start := ⟨year + 1, .april⟩
           end_ := ⟨year + 1, .may⟩
           frequency := .monthly
           value := .fixed (s.tax_withheld - owed)
           tax_policy := .taxExempt })) ∧
    (∀ (flows : List (String × List Flow)) (vals : List (String × Money))
        (year : Nat) (p : AnnualTaxPolicy) (tax_category : String)
        (yr : YearlyReport) (flows' : List (String × List Flow))
        (vals' : List (String × Money)),
      runYear flows vals year p tax_category = .ok (yr, flows', vals') →
      ∃ adj tf, p.calculate_adjustment year yr.tax_summary = .ok (adj, tf) ∧
        flows' = pushFlow flows tax_category tf ∧
        yr.tax_adjustment = adj ∧
        tf.start = ⟨year + 1, .april⟩ ∧ tf.end_ = ⟨year + 1, .may⟩ ∧
        tf.value = .fixed adj.delta ∧ tf.tax_policy = .taxExempt) := by
  constructor
  · intro p year s owed h
    rw [AnnualTaxPolicy.calculate_adjustment, h]
    rfl
  · intro flows vals year p tax_category yr flows' vals' h
    rw [runYear] at h
    cases hcats : runYearCats flows year vals [] TaxSummary.new with
    | error e =>
      rw [hcats] at h
      exact Except.noConfusion h
    | ok res =>
      obtain ⟨vals'', summary, tax⟩ := res
      rw [hcats] at h
      have h2 : (match p.calculate_adjustment year tax with
          | .error e => (.error e : Except String
              (YearlyReport × List (String × List Flow) × List (String × Money)))
          | .ok (adjustment, tax_flow) =>
            .ok (⟨summary, tax, adjustment⟩,
              pushFlow flows tax_category tax_flow, vals'')) =
          .ok (yr, flows', vals') := h
      cases hadj : p.calculate_adjustment year tax with
      | error e =>
        rw [hadj] at h2
        exact Except.noConfusion h2
      | ok arr =>
        obtain ⟨adj, tf⟩ := arr
        rw [hadj] at h2
        have h' : Except.ok (ε := String)
            ((⟨summary, tax, adj⟩ : YearlyReport),
              pushFlow flows tax_category tf, vals'') = .ok (yr, flows', vals') := h2
        injection h' with h'
        obtain ⟨hy, hrest⟩ := Prod.mk.injEq _ _ _ _ |>.mp h'
        obtain ⟨hf, hv⟩ := Prod.mk.injEq _ _ _ _ |>.mp hrest
        subst hy
        subst hf
        subst hv
        obtain ⟨hn, hs, he, hfr, hpol, hval, hw, hd⟩ :=
          calculate_adjustment_ok_shape p year tax adj tf hadj
        exact ⟨adj, tf, hadj, rfl, rfl, hs, he, hval, hpol⟩

/-- Witness for C2, mirroring the repository's `test_annual_generic`:
a policy with constant owed $500 and taxable income $1000, year 2021,
withheld $600 — delta $100, effective rate 50%, flow dated April–May
2022. -/
theorem c2_tax_adjustment_and_feedback_witness :
    AnnualTaxPolicy.calculate_adjustment
      ⟨fun _ _ => .ok (Money.from_dollars 500), fun _ => Money.from_dollars 1000⟩
      2021
      ⟨Money.from_dollars 2000, Money.from_dollars 3000, Money.from_dollars 600⟩ =
    .ok
      ({ owed := Money.from_dollars 500
         withheld := Money.from_dollars 600
         delta := Money.from_dollars 100
         effective_rate := Rate.from_percent 50 },
       { name := "Tax adjustment"
         description := "Estimated tax refund/debt"
         start := ⟨2022, .april⟩
         end_ := ⟨2022, .may⟩
         frequency := .monthly
         value := .fixed (Money.from_dollars 100)
         tax_policy := .taxExempt }) :=
  (c2_tax_adjustment_and_feedback.1
    ⟨fun _ _ => .ok (Money.from_dollars 500), fun _ => Money.from_dollars 1000⟩
    2021
    ⟨Money.from_dollars 2000, Money.from_dollars 3000, Money.from_dollars 600⟩
    (Money.from_dollars 500) rfl).trans (by rfl)

/-- Helper: the category loop leaves categories whose name has no
flows-map entry untouched (value unchanged, position preserved) and
never inserts a summary key for them. -/
theorem runYearCats_skip (flows : List (String × List Flow)) (year : Nat) :
    ∀ (vals : List (String × Money))
      (summary : List (String × List (Month × MonthlyReport))) (tax : TaxSummary)
      (vals' : List (String × Money))
      (summary' : List (String × List (Month × MonthlyReport))) (tax' : TaxSummary),
      runYearCats flows year vals summary tax = .ok (vals', summary', tax') →
      List.Forall₂ (fun a b => a.1 = b.1 ∧ (lookupA flows a.1 = none → b = a)) vals vals' ∧
      ∀ name, lookupA flows name = none →
        lookupA summary' name = lookupA summary name := by
  intro vals
  induction vals with
  | nil =>
    intro summary tax vals' summary' tax' h
    rw [runYearCats_nil] at h
    injection h with h
    obtain ⟨h1, h23⟩ := Prod.mk.injEq _ _ _ _ |>.mp h
    obtain ⟨h2, h3⟩ := Prod.mk.injEq _ _ _ _ |>.mp h23
    subst h1
    subst h2
    exact ⟨List.Forall₂.nil, fun _ _ => rfl⟩
  | cons e rest ih =>
    intro summary tax vals' summary' tax' h
    obtain ⟨name, bal⟩ := e
    rw [runYearCats_cons] at h
    cases hl : lookupA flows name with
    | none =>
      rw [hl] at h
      cases hrec : runYearCats flows year rest summary tax with
      | error err =>
        rw [hrec] at h
        exact Except.noConfusion h
      | ok res =>
        obtain ⟨vals'', s'', t''⟩ := res
        rw [hrec] at h
        injection h with h
        obtain ⟨h1, h23⟩ := Prod.mk.injEq _ _ _ _ |>.mp h
        obtain ⟨h2, h3⟩ := Prod.mk.injEq _ _ _ _ |>.mp h23
        subst h1
        subst h2
        obtain ⟨hF, hP⟩ := ih summary tax vals'' s'' t'' hrec
        exact ⟨List.Forall₂.cons ⟨rfl, fun _ => rfl⟩ hF, hP⟩
    | some fl =>
      rw [hl] at h
      have h2 : (match runCatYear fl bal year with
          | .error e => (.error e : Except String
              (List (String × Money) ×
                List (String × List (Month × MonthlyReport)) × TaxSummary))
          | .ok (reps, balEnd) =>
            match runYearCats flows year rest (insertRep summary name reps)
                (accumTax tax reps) with
            | .error e => .error e
            | .ok (vals', s', t') => .ok ((name, balEnd) :: vals', s', t')) =
          .ok (vals', summary', tax') := h
      cases hcy : runCatYear fl bal year with
      | error err =>
        rw [hcy] at h2
        exact Except.noConfusion h2
      | ok res1 =>
        obtain ⟨reps, balEnd⟩ := res1
        rw [hcy] at h2
        have h3 : (match runYearCats flows year rest (insertRep summary name reps)
              (accumTax tax reps) with
            | .error e => (.error e : Except String
                (List (String × Money) ×
                  List (String × List (Month × MonthlyReport)) × TaxSummary))
            | .ok (vals', s', t') => .ok ((name, balEnd) :: vals', s', t')) =
            .ok (vals', summary', tax') := h2
        cases hrec : runYearCats flows year rest (insertRep summary name reps)
            (accumTax tax reps) with
        | error err =>
          rw [hrec] at h3
          exact Except.noConfusion h3
        | ok res =>
          obtain ⟨vals'', s'', t''⟩ := res
          rw [hrec] at h3
          injection h3 with h
          obtain ⟨hq1, hq23⟩ := Prod.mk.injEq _ _ _ _ |>.mp h
          obtain ⟨hq2, hq3⟩ := Prod.mk.injEq _ _ _ _ |>.mp hq23
          subst hq1
          subst hq2
          obtain ⟨hF, hP⟩ := ih _ _ vals'' s'' t'' hrec
          refine ⟨List.Forall₂.cons ⟨rfl, fun hn =>
            Option.noConfusion (hl.symm.trans hn)⟩ hF, ?_⟩
          intro n hnone
          have hne : name ≠ n := by
            intro hkn
            rw [hkn] at hl
            exact Option.noConfusion (hl.symm.trans hnone)
          rw [hP n hnone, lookupA_insertRep_ne summary name n reps hne]

/-- C10: in a simulated year, a category with no entry in the flows
map is skipped entirely — the year's `category_summary` has no key for
it and its running value is returned unchanged; only categories whose
name has a flows-map entry can appear in the summary. -/
theorem c10_skipped_categories
    (flows : List (String × List Flow)) (vals : List (String × Money)) (year : Nat)
    (p : AnnualTaxPolicy) (tax_category : String) (yr : YearlyReport)
    (flows' : List (String × List Flow)) (vals' : List (String × Money))
    (h : runYear flows vals year p tax_category = .ok (yr, flows', vals')) :
    List.Forall₂ (fun a b => a.1 = b.1 ∧ (lookupA flows a.1 = none → b = a)) vals vals' ∧
    (∀ name, lookupA flows name = none → lookupA yr.category_summary name = none) ∧
    (∀ name reps, lookupA yr.category_summary name = some reps →
      ∃ fl, lookupA flows name = some fl) := by
  rw [runYear] at h
  cases hcats : runYearCats flows year vals [] TaxSummary.new with
  | error e =>
    rw [hcats] at h
    exact Except.noConfusion h
  | ok res =>
    obtain ⟨vals'', summary, tax⟩ := res
    rw [hcats] at h
    have h2 : (match p.calculate_adjustment year tax with
        | .error e => (.error e : Except String
            (YearlyReport × List (String × List Flow) × List (String × Money)))
        | .ok (adjustment, tax_flow) =>
          .ok (⟨summary, tax, adjustment⟩,
            pushFlow flows tax_category tax_flow, vals'')) =
        .ok (yr, flows', vals') := h
    cases hadj : p.calculate_adjustment year tax with
    | error e =>
      rw [hadj] at h2
      exact Except.noConfusion h2
    | ok arr =>
      obtain ⟨adj, tf⟩ := arr
      rw [hadj] at h2
      injection h2 with h2
      obtain ⟨hy, hrest⟩ := Prod.mk.injEq _ _ _ _ |>.mp h2
      obtain ⟨hf, hv⟩ := Prod.mk.injEq _ _ _ _ |>.mp hrest
      subst hy
      subst hv
      obtain ⟨hF, hP⟩ := runYearCats_skip flows year vals [] TaxSummary.new
        vals'' summary tax hcats
      refine ⟨hF, fun name hnone => (hP name hnone).trans rfl, ?_⟩
      intro name reps hsome
      cases hfl : lookupA flows name with
      | none =>
        have := (hP name hfl).trans rfl
        rw [this] at hsome
        exact Option.noConfusion hsome
      | some fl => exact ⟨fl, rfl⟩

/-- Witness for C10: one configured category `c1`, an empty flows map —
the year report's summary has no key `c1`. -/
theorem c10_skipped_categories_witness :
    lookupA (YearlyReport.category_summary
      ⟨[], TaxSummary.new, ⟨⟨0⟩, ⟨0⟩, ⟨0⟩, ⟨0⟩⟩⟩) "c1" = none :=
  ((c10_skipped_categories [] [("c1", ⟨10000⟩)] 2020
      ⟨fun _ _ => .ok ⟨0⟩, fun _ => ⟨0⟩⟩ "t"
      ⟨[], TaxSummary.new, ⟨⟨0⟩, ⟨0⟩, ⟨0⟩, ⟨0⟩⟩⟩
      [("t", [⟨"Tax adjustment", "Estimated tax refund/debt", ⟨2021, .april⟩,
        ⟨2021, .may⟩, .monthly, .fixed ⟨0⟩, .taxExempt⟩])]
      [("c1", ⟨10000⟩)] (by rfl)).2.1) "c1" rfl

/-- Helper: invariants of the per-month flow loop.  Every transaction
in the output map is either from the initial accumulator or the result
of evaluating an applicable flow against `bal`; every applicable flow
evaluated successfully against `bal` and its name is a key of the
output map; existing keys survive. -/
theorem evalFlows_spec (bal : Money) (time : Time) :
    ∀ (flows : List Flow) (acc txns : List (String × Tx)),
      evalFlows bal time flows acc = .ok txns →
      (∀ p ∈ txns, p ∈ acc ∨ ∃ f ∈ flows, Flow.applies_at time f = true ∧
        f.name = p.1 ∧ f.calculate_transaction bal time = .ok p.2) ∧
      (∀ f ∈ flows, Flow.applies_at time f = true →
        (∃ tx, f.calculate_transaction bal time = .ok tx) ∧
          lookupA txns f.name ≠ none) ∧
      (∀ k, lookupA acc k ≠ none → lookupA txns k ≠ none) := by
  intro flows
  induction flows with
  | nil =>
    intro acc txns h
    rw [evalFlows_nil] at h
    injection h with h
    subst h
    exact ⟨fun p hp => Or.inl hp, fun f hf => (List.not_mem_nil f hf).elim,
      fun k hk => hk⟩
  | cons f rest ih =>
    intro acc txns h
    rw [evalFlows_cons] at h
    by_cases ha : Flow.applies_at time f = true
    · rw [if_pos ha] at h
      cases hc : f.calculate_transaction bal time with
      | error e =>
        rw [hc] at h
        exact Except.noConfusion h
      | ok tx =>
        rw [hc] at h
        obtain ⟨h1, h2, h3⟩ := ih (insertRep acc f.name tx) txns h
        refine ⟨?_, ?_, ?_⟩
        · intro p hp
          rcases h1 p hp with hin | ⟨g, hg, hga, hgn, hgc⟩
          · rcases mem_insertRep acc f.name tx p hin with hacc | rfl
            · exact Or.inl hacc
            · exact Or.inr ⟨f, List.mem_cons_self _ _, ha, rfl, hc⟩
          · exact Or.inr ⟨g, List.mem_cons_of_mem f hg, hga, hgn, hgc⟩
        · intro g hg hga
          rcases List.mem_cons.mp hg with rfl | hg'
          · refine ⟨⟨tx, hc⟩, h3 g.name ?_⟩
            rw [lookupA_insertRep_self]
            exact fun hx => Option.noConfusion hx
          · exact h2 g hg' hga
        · intro k hk
          exact h3 k (lookupA_insertRep_keep acc f.name k tx hk)
    · rw [if_neg ha] at h
      obtain ⟨h1, h2, h3⟩ := ih acc txns h
      refine ⟨?_, ?_, h3⟩
      · intro p hp
        rcases h1 p hp with hin | ⟨g, hg, hga, hgn, hgc⟩
        · exact Or.inl hin
        · exact Or.inr ⟨g, List.mem_cons_of_mem f hg, hga, hgn, hgc⟩
      · intro g hg hga
        rcases List.mem_cons.mp hg with rfl | hg'
        · exact absurd hga ha
        · exact h2 g hg' hga

/-- Helper: one month of `CategoryModel::run` satisfies the C1
contract. -/
theorem runCatMonth_spec (flows : List Flow) (bal : Money) (time : Time)
    (rep : MonthlyReport) (bal' : Money)
    (h : runCatMonth flows bal time = .ok (rep, bal')) :
    bal' = rep.value ∧ MonthOk flows bal time rep := by
  rw [runCatMonth] at h
  cases he : evalFlows bal time flows [] with
  | error e =>
    rw [he] at h
    exact Except.noConfusion h
  | ok txns =>
    rw [he] at h
    injection h with h
    obtain ⟨h1, h2⟩ := Prod.mk.injEq _ _ _ _ |>.mp h
    subst h2
    obtain ⟨e1, e2, e3⟩ := evalFlows_spec bal time flows [] txns he
    have hrep : rep = ⟨applyTxs bal txns, txns⟩ := h1.symm
    subst hrep
    refine ⟨rfl, applyTxs_eq_add_txSum txns bal, ?_, ?_⟩
    · intro p hp
      rcases e1 p hp with hin | hex
      · exact (List.not_mem_nil p hin).elim
      · exact hex
    · exact e2

/-- Helper: the month loop of `CategoryModel::run` produces the
month-chained C1 contract. -/
theorem runCatMonths_spec (flows : List Flow) :
    ∀ (times : List Time) (bal : Money) (reps : List (Month × MonthlyReport))
      (balEnd : Money),
      runCatMonths flows bal times = .ok (reps, balEnd) →
      MonthsOk flows bal times reps := by
  intro times
  induction times with
  | nil =>
    intro bal reps balEnd h
    rw [runCatMonths_nil] at h
    injection h with h
    obtain ⟨h1, h2⟩ := Prod.mk.injEq _ _ _ _ |>.mp h
    subst h1
    exact trivial
  | cons t ts ih =>
    intro bal reps balEnd h
    rw [runCatMonths_cons] at h
    cases hm : runCatMonth flows bal t with
    | error e =>
      rw [hm] at h
      exact Except.noConfusion h
    | ok res =>
      obtain ⟨rep, bal'⟩ := res
      rw [hm] at h
      have h2 : (match runCatMonths flows bal' ts with
          | .error e => (.error e : Except String
              (List (Month × MonthlyReport) × Money))
          | .ok (rest, balEnd) => .ok ((t.month, rep) :: rest, balEnd)) =
          .ok (reps, balEnd) := h
      cases hr : runCatMonths flows bal' ts with
      | error e =>
        rw [hr] at h2
        exact Except.noConfusion h2
      | ok res2 =>
        obtain ⟨rest, be⟩ := res2
        rw [hr] at h2
        injection h2 with h2
        obtain ⟨hq1, hq2⟩ := Prod.mk.injEq _ _ _ _ |>.mp h2
        subst hq1
        obtain ⟨hb, hMonth⟩ := runCatMonth_spec flows bal t rep bal' hm
        refine ⟨rfl, hMonth, ?_⟩
        have hrec := ih bal' rest be hr
        rw [hb] at hrec
        exact hrec

/-- C1: for every category run, each month's flows with `applies_at`
true are all evaluated via `calculate_transaction` against the
category's balance as it stood before any of that month's transactions
(the same snapshot for every flow of the month), the resulting
transactions are keyed by flow name, and the month's ending balance
recorded in the `MonthlyReport` equals the prior month's ending
balance plus the sum of the amounts in the month's transaction map,
applied once (`MonthOk`/`MonthsOk` spell out exactly these facts). -/
theorem c1_snapshot_evaluation_and_monthly_balance :
    (∀ (flows : List Flow) (bal : Money) (time : Time) (rep : MonthlyReport)
      (bal' : Money),
      runCatMonth flows bal time = .ok (rep, bal') →
      bal' = rep.value ∧ MonthOk flows bal time rep) ∧
    (∀ (flows : List Flow) (bal : Money) (year : Nat)
      (reps : List (Month × MonthlyReport)) (balEnd : Money),
      runCatYear flows bal year = .ok (reps, balEnd) →
      MonthsOk flows bal (Year.months year) reps) :=
  ⟨runCatMonth_spec, fun flows bal year reps balEnd h =>
    runCatMonths_spec flows (Year.months year) bal reps balEnd h⟩

/-- Witness for C1: a single fixed $1 monthly flow with no
withholding, January 2021, opening balance 0 — the month report
records balance 100 cents and the one name-keyed transaction. -/
theorem c1_snapshot_evaluation_and_monthly_balance_witness :
    (⟨100⟩ : Money) =
      (⟨⟨100⟩, [("f", ⟨⟨2021, .january⟩, ⟨100⟩, ⟨⟨100⟩, ⟨0⟩⟩⟩)]⟩ : MonthlyReport).value ∧
    MonthOk
      [⟨"f", "d", ⟨2021, .january⟩, ⟨2022, .january⟩, .monthly,
        .fixed ⟨100⟩, .noWithholding⟩]
      ⟨0⟩ ⟨2021, .january⟩
      ⟨⟨100⟩, [("f", ⟨⟨2021, .january⟩, ⟨100⟩, ⟨⟨100⟩, ⟨0⟩⟩⟩)]⟩ :=
  c1_snapshot_evaluation_and_monthly_balance.1
    [⟨"f", "d", ⟨2021, .january⟩, ⟨2022, .january⟩, .monthly,
      .fixed ⟨100⟩, .noWithholding⟩]
    ⟨0⟩ ⟨2021, .january⟩
    ⟨⟨100⟩, [("f", ⟨⟨2021, .january⟩, ⟨100⟩, ⟨⟨100⟩, ⟨0⟩⟩⟩)]⟩ ⟨100⟩ (by rfl)

theorem runYears_nil (p : AnnualTaxPolicy) (cat : String)
    (flows : List (String × List Flow)) (vals : List (String × Money)) :
    runYears p cat [] flows vals = .ok [] := rfl

theorem runYears_cons (p : AnnualTaxPolicy) (cat : String) (y : Nat) (ys : List Nat)
    (flows : List (String × List Flow)) (vals : List (String × Money)) :
    runYears p cat (y :: ys) flows vals =
      match runYear flows vals y p cat with
      | .error e => .error e
      | .ok (report, flows', vals') =>
        match runYears p cat ys flows' vals' with
        | .error e => .error e
        | .ok rest => .ok ((y, report) :: rest) := rfl

/-- Helper: dissection of a successful `run_year`. -/
theorem runYear_dissect (flows : List (String × List Flow))
    (vals : List (String × Money)) (year : Nat) (p : AnnualTaxPolicy)
    (cat : String) (yr : YearlyReport) (flows' : List (String × List Flow))
    (vals' : List (String × Money))
    (h : runYear flows vals year p cat = .ok (yr, flows', vals')) :
    ∃ tax adj tf,
      runYearCats flows year vals [] TaxSummary.new =
        .ok (vals', yr.category_summary, tax) ∧
      yr.tax_summary = tax ∧ p.calculate_adjustment year tax = .ok (adj, tf) ∧
      yr.tax_adjustment = adj ∧ flows' = pushFlow flows cat tf := by
  rw [runYear] at h
  cases hcats : runYearCats flows year vals [] TaxSummary.new with
  | error e =>
    rw [hcats] at h
    exact Except.noConfusion h
  | ok res =>
    obtain ⟨vals'', summary, tax⟩ := res
    rw [hcats] at h
    have h2 : (match p.calculate_adjustment year tax with
        | .error e => (.error e : Except String
            (YearlyReport × List (String × List Flow) × List (String × Money)))
        | .ok (adjustment, tax_flow) =>
          .ok (⟨summary, tax, adjustment⟩,
            pushFlow flows cat tax_flow, vals'')) =
        .ok (yr, flows', vals') := h
    cases hadj : p.calculate_adjustment year tax with
    | error e =>
      rw [hadj] at h2
      exact Except.noConfusion h2
    | ok arr =>
      obtain ⟨adj, tf⟩ := arr
      rw [hadj] at h2
      injection h2 with h2
      obtain ⟨hy, hrest⟩ := Prod.mk.injEq _ _ _ _ |>.mp h2
      obtain ⟨hf, hv⟩ := Prod.mk.injEq _ _ _ _ |>.mp hrest
      subst hy
      subst hv
      subst hf
      exact ⟨tax, adj, tf, rfl, rfl, hadj, rfl, rfl⟩

/-- Helper: facts available when the category loop of a year
succeeds: every listed category with a flows entry had a successful
`runCatYear`, and every summary entry is either inherited or the
report of a successful `runCatYear` of some category with a flows
entry. -/
theorem runYearCats_ok_facts (flows : List (String × List Flow)) (year : Nat) :
    ∀ (vals : List (String × Money))
      (summary : List (String × List (Month × MonthlyReport))) (tax : TaxSummary)
      (vals' : List (String × Money))
      (summary' : List (String × List (Month × MonthlyReport))) (tax' : TaxSummary),
      runYearCats flows year vals summary tax = .ok (vals', summary', tax') →
      (∀ name bal, (name, bal) ∈ vals → ∀ fl, lookupA flows name = some fl →
        ∃ reps balEnd, runCatYear fl bal year = .ok (reps, balEnd)) ∧
      (∀ q ∈ summary', q ∈ summary ∨ ∃ bal fl balEnd,
        lookupA flows q.1 = some fl ∧ runCatYear fl bal year = .ok (q.2, balEnd)) := by
  intro vals
  induction vals with
  | nil =>
    intro summary tax vals' summary' tax' h
    rw [runYearCats_nil] at h
    injection h with h
    obtain ⟨h1, h23⟩ := Prod.mk.injEq _ _ _ _ |>.mp h
    obtain ⟨h2, h3⟩ := Prod.mk.injEq _ _ _ _ |>.mp h23
    subst h2
    exact ⟨fun name bal hmem => (List.not_mem_nil _ hmem).elim,
      fun q hq => Or.inl hq⟩
  | cons e rest ih =>
    intro summary tax vals' summary' tax' h
    obtain ⟨n2, b2⟩ := e
    rw [runYearCats_cons] at h
    cases hl : lookupA flows n2 with
    | none =>
      rw [hl] at h
      cases hrec : runYearCats flows year rest summary tax with
      | error err =>
        rw [hrec] at h
        exact Except.noConfusion h
      | ok res =>
        obtain ⟨vals'', s'', t''⟩ := res
        rw [hrec] at h
        injection h with h
        obtain ⟨h1, h23⟩ := Prod.mk.injEq _ _ _ _ |>.mp h
        obtain ⟨h2, h3⟩ := Prod.mk.injEq _ _ _ _ |>.mp h23
        subst h2
        obtain ⟨ihA, ihB⟩ := ih summary tax vals'' s'' t'' hrec
        refine ⟨?_, ihB⟩
        intro name bal hmem fl hlook
        rcases List.mem_cons.mp hmem with heq | hmem'
        · obtain ⟨hn, hb⟩ := Prod.mk.injEq _ _ _ _ |>.mp heq
          rw [hn] at hlook
          rw [hl] at hlook
          exact Option.noConfusion hlook
        · exact ihA name bal hmem' fl hlook
    | some fl2 =>
      rw [hl] at h
      have h2 : (match runCatYear fl2 b2 year with
          | .error e => (.error e : Except String
              (List (String × Money) ×
                List (String × List (Month × MonthlyReport)) × TaxSummary))
          | .ok (reps, balEnd) =>
            match runYearCats flows year rest (insertRep summary n2 reps)
                (accumTax tax reps) with
            | .error e => .error e
            | .ok (vals', s', t') => .ok ((n2, balEnd) :: vals', s', t')) =
          .ok (vals', summary', tax') := h
      cases hcy : runCatYear fl2 b2 year with
      | error err =>
        rw [hcy] at h2
        exact Except.noConfusion h2
      | ok res1 =>
        obtain ⟨reps, balEnd⟩ := res1
        rw [hcy] at h2
        have h3 : (match runYearCats flows year rest (insertRep summary n2 reps)
              (accumTax tax reps) with
            | .error e => (.error e : Except String
                (List (String × Money) ×
                  List (String × List (Month × MonthlyReport)) × TaxSummary))
            | .ok (vals', s', t') => .ok ((n2, balEnd) :: vals', s', t')) =
            .ok (vals', summary', tax') := h2
        cases hrec : runYearCats flows year rest (insertRep summary n2 reps)
            (accumTax tax reps) with
        | error err =>
          rw [hrec] at h3
          exact Except.noConfusion h3
        | ok res =>
          obtain ⟨vals'', s'', t''⟩ := res
          rw [hrec] at h3
          injection h3 with h3
          obtain ⟨hq1, hq23⟩ := Prod.mk.injEq _ _ _ _ |>.mp h3
          obtain ⟨hq2, hq3⟩ := Prod.mk.injEq _ _ _ _ |>.mp hq23
          subst hq2
          obtain ⟨ihA, ihB⟩ := ih _ _ vals'' s'' t'' hrec
          constructor
          · intro name bal hmem fl hlook
            rcases List.mem_cons.mp hmem with heq | hmem'
            · obtain ⟨hn, hb⟩ := Prod.mk.injEq _ _ _ _ |>.mp heq
              subst hn
              subst hb
              rw [hl] at hlook
              injection hlook with hlook
              subst hlook
              exact ⟨reps, balEnd, hcy⟩
            · exact ihA name bal hmem' fl hlook
          · intro q hq
            rcases ihB q hq with hin | hex
            · rcases mem_insertRep summary n2 reps q hin with hin' | rfl
              · exact Or.inl hin'
              · exact Or.inr ⟨b2, fl2, balEnd, hl, hcy⟩
            · exact Or.inr hex

/-- Helper: the month-chained contract forces the report to be keyed
by exactly the months of the iterated time list, in order. -/
theorem monthsOk_labels (flows : List Flow) :
    ∀ (times : List Time) (bal : Money) (reps : List (Month × MonthlyReport)),
      MonthsOk flows bal times reps →
      reps.map Prod.fst = times.map Time.month := by
  intro times
  induction times with
  | nil =>
    intro bal reps h
    cases reps with
    | nil => rfl
    | cons mr mrs => exact h.elim
  | cons t ts ih =>
    intro bal reps h
    cases reps with
    | nil => exact h.elim
    | cons mr mrs =>
      obtain ⟨h1, h2, h3⟩ := h
      rw [List.map_cons, List.map_cons, h1, ih mr.2.value mrs h3]

/-- Helper: a successful year loop yields one report per requested
year, in order, with each reported category carrying exactly the 12
months of its year. -/
theorem runYears_facts (p : AnnualTaxPolicy) (cat : String) :
    ∀ (ys : List Nat) (flows : List (String × List Flow))
      (vals : List (String × Money)) (res : List (Nat × YearlyReport)),
      runYears p cat ys flows vals = .ok res →
      res.map Prod.fst = ys ∧
      ∀ q ∈ res, ∀ s ∈ q.2.category_summary,
        s.2.map Prod.fst = (Year.months q.1).map Time.month := by
  intro ys
  induction ys with
  | nil =>
    intro flows vals res h
    rw [runYears_nil] at h
    injection h with h
    subst h
    exact ⟨rfl, fun q hq => (List.not_mem_nil q hq).elim⟩
  | cons y ys ih =>
    intro flows vals res h
    rw [runYears_cons] at h
    cases hy : runYear flows vals y p cat with
    | error e =>
      rw [hy] at h
      exact Except.noConfusion h
    | ok res1 =>
      obtain ⟨report, flows', vals'⟩ := res1
      rw [hy] at h
      have h2 : (match runYears p cat ys flows' vals' with
          | .error e => (.error e : Except String (List (Nat × YearlyReport)))
          | .ok rest => .ok ((y, report) :: rest)) = .ok res := h
      cases hrest : runYears p cat ys flows' vals' with
      | error e =>
        rw [hrest] at h2
        exact Except.noConfusion h2
      | ok rest =>
        rw [hrest] at h2
        injection h2 with h2
        subst h2
        obtain ⟨ih1, ih2⟩ := ih flows' vals' rest hrest
        refine ⟨by rw [List.map_cons, ih1], ?_⟩
        intro q hq
        rcases List.mem_cons.mp hq with rfl | hq'
        · intro s hs
          obtain ⟨tax, adj, tf, hcats, -, -, -, -⟩ :=
            runYear_dissect flows vals y p cat report flows' vals' hy
          obtain ⟨-, hprov⟩ := runYearCats_ok_facts flows y vals []
            TaxSummary.new vals' report.category_summary tax hcats
          rcases hprov s hs with hin | ⟨bal, fl, balEnd, -, hcy⟩
          · exact (List.not_mem_nil s hin).elim
          · exact monthsOk_labels fl (Year.months y) bal s.2
              (runCatMonths_spec fl (Year.months y) bal s.2 balEnd hcy)
        · exact ih2 q hq'

/-- C3: a flow evaluation failure — rate-application overflow or an
out-of-range table lookup surfacing as a `calculate_transaction`
error — aborts the month it occurs in; a category-year failure aborts
the whole year loop; and `Model::run`'s only successful outcome is a
complete report: one `YearlyReport` per requested year, in order, each
reported category carrying exactly its 12 months. -/
theorem c3_failures_abort_and_run_is_complete :
    (∀ (flows : List Flow) (bal : Money) (time : Time) (f : Flow) (e : String),
      f ∈ flows → Flow.applies_at time f = true →
      f.calculate_transaction bal time = .error e →
      ∃ e', runCatMonth flows bal time = .error e') ∧
    (∀ (flows : List (String × List Flow)) (year : Nat)
      (vals : List (String × Money))
      (summary : List (String × List (Month × MonthlyReport))) (tax : TaxSummary)
      (name : String) (bal : Money) (fl : List Flow) (e : String),
      (name, bal) ∈ vals → lookupA flows name = some fl →
      runCatYear fl bal year = .error e →
      ∃ e', runYearCats flows year vals summary tax = .error e') ∧
    (∀ (m : Model) (r : TimeRange Nat) (report : ModelReport),
      Model.run m r = .ok report →
      report.years.map Prod.fst = yearList r.start r.end_ ∧
      ∀ q ∈ report.years, ∀ s ∈ q.2.category_summary,
        s.2.map Prod.fst = (Year.months q.1).map Time.month) := by
  refine ⟨?_, ?_, ?_⟩
  · intro flows bal time f e hmem ha herr
    cases hres : runCatMonth flows bal time with
    | error e' => exact ⟨e', rfl⟩
    | ok res =>
      obtain ⟨rep, bal'⟩ := res
      obtain ⟨-, -, -, hall⟩ := runCatMonth_spec flows bal time rep bal' hres
      obtain ⟨⟨tx, hok⟩, -⟩ := hall f hmem ha
      exact Except.noConfusion (herr.symm.trans hok)
  · intro flows year vals summary tax name bal fl e hmem hlook herr
    cases hres : runYearCats flows year vals summary tax with
    | error e' => exact ⟨e', rfl⟩
    | ok res =>
      obtain ⟨vals', summary', tax'⟩ := res
      obtain ⟨hA, -⟩ := runYearCats_ok_facts flows year vals summary tax
        vals' summary' tax' hres
      obtain ⟨reps, balEnd, hok⟩ := hA name bal hmem fl hlook
      exact Except.noConfusion (herr.symm.trans hok)
  · intro m r report h
    rw [Model.run] at h
    cases hys : runYears m.tax_policy m.tax_category (yearList r.start r.end_)
        m.flows (m.categories.map (fun c => (c.name, c.value))) with
    | error e =>
      rw [hys] at h
      exact Except.noConfusion h
    | ok years =>
      rw [hys] at h
      injection h with h
      subst h
      exact runYears_facts m.tax_policy m.tax_category (yearList r.start r.end_)
        m.flows (m.categories.map (fun c => (c.name, c.value))) years hys

/-- Witness for C3: a table flow queried outside its table's covered
interval (March 2021 against a table covering only January 2021)
yields an error that aborts the month. -/
theorem c3_failures_abort_and_run_is_complete_witness :
    ∃ e', runCatMonth
      [⟨"t", "d", ⟨2021, .january⟩, ⟨2022, .january⟩, .monthly,
        .table ⟨[(⟨⟨2021, .january⟩, ⟨2021, .february⟩⟩, ⟨10⟩)]⟩, .noWithholding⟩]
      ⟨0⟩ ⟨2021, .march⟩ = .error e' :=
  c3_failures_abort_and_run_is_complete.1
    [⟨"t", "d", ⟨2021, .january⟩, ⟨2022, .january⟩, .monthly,
      .table ⟨[(⟨⟨2021, .january⟩, ⟨2021, .february⟩⟩, ⟨10⟩)]⟩, .noWithholding⟩]
    ⟨0⟩ ⟨2021, .march⟩
    ⟨"t", "d", ⟨2021, .january⟩, ⟨2022, .january⟩, .monthly,
      .table ⟨[(⟨⟨2021, .january⟩, ⟨2021, .february⟩⟩, ⟨10⟩)]⟩, .noWithholding⟩
    "Time was not within our range"
    (List.mem_cons_self _ _) (by rfl) (by rfl)

/-- C8 (code bug): the parse/format round-trip fails.  `"1.05"` parses
to `Rate(1050000)`, but `Display` pads the fractional remainder
`50000` with `{:02}` (minimum width two) instead of six digits,
printing `"1.50000%"`, which re-parses to `Rate(1500000)` — a
different rate.  Separately, an input with more than six fractional
digits whose fractional value is below `RATE_SCALE`
(e.g. `"1.0000001"`) reaches `(10 as i64).pow(6 - digits)` with
`digits = 7` and panics on `u32` subtraction overflow instead of
returning the documented parse error. -/
theorem c8_rate_display_roundtrip_bug :
    Rate.from_str "1.05" = .ok ⟨1050000⟩ ∧
    Rate.display ⟨1050000⟩ = "1.50000%" ∧
    Rate.from_str (Rate.display ⟨1050000⟩) = .ok ⟨1500000⟩ ∧
    (⟨1500000⟩ : Rate) ≠ (⟨1050000⟩ : Rate) ∧
    Rate.from_str "1.0000001" = .error .subtractOverflow :=
  ⟨rfl, rfl, rfl, by decide, rfl⟩

/-- C9 (code bug): `HousePurchase::build_flows` on the repository's own
reference mortgage ($200,000 house, $20,000 down, $1,000 setup, 6.5%
for 30 years, amortized payment $1,264.13).  The four one-time flows
and the mortgage-side recurring flows match the claim, but the
recurring "loan payment" flow posted to the regular-payment category
carries the *positive* fixed amount `+payment` — the category's
balance increases by the payment every month instead of being reduced
by it. -/
theorem c9_house_purchase_regular_payment_sign :
    HousePurchase.build_flows
      ⟨"h", ⟨⟨2020, .january⟩, ⟨2050, .january⟩⟩, ⟨6500000⟩, ⟨20000000⟩,
        ⟨100000⟩, ⟨2000000⟩, "house", "mort", "down", "reg"⟩ ⟨126413⟩ =
      [("mort",
        ⟨"h initial mortgage setup", "The initial setup of the mortgage for h",
          ⟨2020, .january⟩, ⟨2020, .february⟩, .monthly, .fixed ⟨-18000000⟩,
          .taxExempt⟩),
       ("house",
        ⟨"h initial house value", "The initial purchase price of the house h",
          ⟨2020, .january⟩, ⟨2020, .february⟩, .monthly, .fixed ⟨20000000⟩,
          .taxExempt⟩),
       ("down",
        ⟨"h down payment", "Down payment for house h",
          ⟨2020, .january⟩, ⟨2020, .february⟩, .monthly, .fixed ⟨-2000000⟩,
          .taxExempt⟩),
       ("down",
        ⟨"h mortgage setup cost", "Costs involved with creating the mortgage h",
          ⟨2020, .january⟩, ⟨2020, .february⟩, .monthly, .fixed ⟨-100000⟩,
          .taxExempt⟩),
       ("reg",
        ⟨"h loan payment", "The regular repayments for the loan on h",
          ⟨2020, .february⟩, ⟨2050, .february⟩, .monthly, .fixed ⟨126413⟩,
          .taxExempt⟩),
       ("mort",
        ⟨"h loan payment", "The regular repayments for the loan on h",
          ⟨2020, .february⟩, ⟨2050, .february⟩, .monthly, .fixed ⟨126413⟩,
          .taxExempt⟩),
       ("mort",
        ⟨"h mortgage interest", "The regular interest costs for the loan on h",
          ⟨2020, .february⟩, ⟨2050, .february⟩, .monthly, .rate ⟨541666⟩,
          .taxExempt⟩)] ∧
    (0 : Int) < 126413 :=
  ⟨rfl, by decide⟩

end FinPlan
